import Mathlib

/-!
# Pike caching core: status table, record codec, sweep, HTTPCache, responder

A shallow embedding of `cache/cache.go`, `cache/http_cache.go` and
`middleware/responder.go`, with the properties of the caching core stated
and proved (or refuted) over it.

Conventions of the embedding:

* `[]byte` is `List Nat`; a Go slice is modelled with capacity equal to its
  length, so a slice expression whose upper bound exceeds the length faults.
* `uint32` / `uint16` values are `Nat` with explicit reduction modulo
  `2 ^ 32` / `2 ^ 16` where Go's arithmetic wraps.
* `util.GetSeconds()` is an explicit clock reading passed to every function
  at the place where the source reads the clock.
* A Go call that may return an error value, panic, or block for ever returns
  `Except Fault _`.
* Channels live in a heap (a list); a channel value is its index, and the
  nil channel is `none`.
-/

namespace Pike

/-- Go `[]byte`. -/
abbrev Bytes := List Nat

/-- The error values the embedded code returns: those of package `vars`
and of the middleware, and those the key-value engine (`bolt`) returns from
`Put` and `CreateBucketIfNotExists`, which `Save` and `InitBucket` pass on. -/
inductive GoError where
  | ErrDbNotInit
  | errCacheInvalid
  | ErrKeyRequired
  | ErrKeyTooLarge
  | ErrValueTooLarge
  | ErrBucketNameRequired
  | other (code : Nat)
  deriving DecidableEq, Repr

/-- The ways a Go call can fail to return normally with a nil error. -/
inductive Fault where
  /-- the function returned this non-nil error value -/
  | err (e : GoError)
  /-- a run-time panic (slice bounds out of range, nil dereference, send on
  or close of a closed channel) -/
  | panic
  /-- the goroutine blocks for ever (send on a full channel nobody reads) -/
  | blocked
  deriving DecidableEq, Repr

deriving instance DecidableEq for Except

/-! ## Status table (`cache/cache.go`, lines 12-109) -/

/-- The request-status constants of package `vars` (`vars.Fetching`, ...).
Package `vars` is not part of the sources at hand, so the constants are a
parameter of the embedding. -/
structure Vars where
  Fetching : Int
  Waiting : Int
  HitForPass : Int
  Cacheable : Int
  deriving DecidableEq, Repr

/-- A channel made by `make(chan int, 1)`, the only `make` of `cache.go`:
its buffer (at most one element) and whether it has been closed. -/
structure Chan where
  buf : List Int
  closed : Bool
  deriving DecidableEq, Repr

/-- Go struct `RequestStatus`; `waitingChans` holds channel indices. -/
structure RequestStatus where
  createdAt : Nat
  ttl : Nat
  status : Int
  waitingChans : List Nat
  deriving DecidableEq, Repr

/-- The package-level state of the status table: `rsMap` and the heap of
channels allocated so far. Every `*RequestStatus` is reachable only through
`rsMap`, so the map holds the structs by value. -/
structure Table where
  rsMap : Bytes → Option RequestStatus
  chans : List Chan

/-- The empty table: `rsMap = make(map[string]*RequestStatus)`. -/
def Table.empty : Table := ⟨fun _ => none, []⟩

/-- Go `rsMap[key] = rs`. -/
def setRs (m : Bytes → Option RequestStatus) (key : Bytes) (rs : RequestStatus) :
    Bytes → Option RequestStatus :=
  fun k => if k = key then some rs else m k

/-- Go `uint32` subtraction `a - b` (wraps modulo `2 ^ 32`). -/
def subU32 (a b : Nat) : Nat := (a % 2 ^ 32 + 2 ^ 32 - b % 2 ^ 32) % 2 ^ 32

/-- Go `uint32` addition `a + b` (wraps modulo `2 ^ 32`). -/
def addU32 (a b : Nat) : Nat := (a + b) % 2 ^ 32

/-- Go `initRequestStatus(key, ttl)`; `now` is the reading of
`util.GetSeconds()`. Returns the new struct and the updated map. -/
def initRequestStatus (now : Nat) (key : Bytes) (ttl : Nat)
    (m : Bytes → Option RequestStatus) : RequestStatus × (Bytes → Option RequestStatus) :=
  let rs : RequestStatus := { createdAt := now, ttl := ttl, status := 0, waitingChans := [] }
  (rs, setRs m key rs)

/-- Go `isExpired(rs)`; `now` is the reading of `util.GetSeconds()`. -/
def isExpired (now : Nat) (rs : RequestStatus) : Bool :=
  if rs.ttl ≠ 0 ∧ subU32 now rs.createdAt > rs.ttl then true else false

/-- Go `GetRequestStatus(key)`. `tExp` is the clock reading taken inside
`isExpired` (only read when an entry exists) and `tInit` the one taken inside
`initRequestStatus` (only read when a fresh entry is made). The result is
the returned pair `(status, c)` and the table afterwards. -/
def GetRequestStatus (v : Vars) (tExp tInit : Nat) (key : Bytes) (s : Table) :
    (Int × Option Nat) × Table :=
  match s.rsMap key with
  | none =>
    let (rs, m) := initRequestStatus tInit key 0 s.rsMap
    ((v.Fetching, none), { s with rsMap := setRs m key { rs with status := v.Fetching } })
  | some rs =>
    if isExpired tExp rs then
      let (rs1, m) := initRequestStatus tInit key 0 s.rsMap
      ((v.Fetching, none), { s with rsMap := setRs m key { rs1 with status := v.Fetching } })
    else if rs.status = v.Fetching then
      let c := s.chans.length
      ((v.Waiting, some c),
        { rsMap := setRs s.rsMap key { rs with waitingChans := rs.waitingChans ++ [c] }
          chans := s.chans ++ [⟨[], false⟩] })
    else
      ((rs.status, none), s)

/-- Go `c <- x` on a capacity-one channel with no receiver parked on it. -/
def chanSend (c : Chan) (x : Int) : Except Fault Chan :=
  if c.closed then .error .panic
  else if c.buf = [] then .ok { c with buf := c.buf ++ [x] }
  else .error .blocked

/-- Go `close(c)`. -/
def chanClose (c : Chan) : Except Fault Chan :=
  if c.closed then .error .panic else .ok { c with closed := true }

/-- One iteration of the loop of `triggerWatingRequstAndSetStatus`:
`c <- status; close(c)` on the channel with index `c`. -/
def signalOne (status : Int) (heap : List Chan) (c : Nat) : Except Fault (List Chan) :=
  match heap[c]? with
  | none => .error .panic
  | some ch =>
    match chanSend ch status with
    | .error f => .error f
    | .ok ch1 =>
      match chanClose ch1 with
      | .error f => .error f
      | .ok ch2 => .ok (heap.set c ch2)

/-- The loop `for _, c := range waitingChans { c <- status; close(c) }`. -/
def signalAll (status : Int) : List Nat → List Chan → Except Fault (List Chan)
  | [], heap => .ok heap
  | c :: cs, heap =>
    match signalOne status heap c with
    | .error f => .error f
    | .ok heap1 => signalAll status cs heap1

/-- Go `triggerWatingRequstAndSetStatus(key, status, ttl)`. The function
reads no clock. -/
def triggerWatingRequstAndSetStatus (key : Bytes) (status : Int) (ttl : Nat) (s : Table) :
    Except Fault Table :=
  match s.rsMap key with
  | none => .ok s
  | some rs =>
    match signalAll status rs.waitingChans s.chans with
    | .error f => .error f
    | .ok heap =>
      .ok { rsMap := setRs s.rsMap key
              { rs with status := status, ttl := ttl, waitingChans := [] }
            chans := heap }

/-- Go `HitForPass(key, ttl)`. -/
def HitForPass (v : Vars) (key : Bytes) (ttl : Nat) (s : Table) : Except Fault Table :=
  triggerWatingRequstAndSetStatus key v.HitForPass ttl s

/-- Go `Cacheable(key, ttl)`. -/
def Cacheable (v : Vars) (key : Bytes) (ttl : Nat) (s : Table) : Except Fault Table :=
  triggerWatingRequstAndSetStatus key v.Cacheable ttl s

/-- A sequence of `GetRequestStatus(key)` calls, one per pair of clock
readings `(tExp, tInit)`, with nothing in between; returns what each call
returned, in order, and the final table. -/
def getSeq (v : Vars) (key : Bytes) : List (Nat × Nat) → Table → List (Int × Option Nat) × Table
  | [], s => ([], s)
  | (tExp, tInit) :: ts, s =>
    let (r, s1) := GetRequestStatus v tExp tInit key s
    let (rs, s2) := getSeq v key ts s1
    (r :: rs, s2)

/-- A concrete choice of the `vars` constants, used to run the code on
examples (`Pass = iota` is 0 in the original package). -/
def sampleVars : Vars := { Fetching := 1, Waiting := 2, HitForPass := 3, Cacheable := 4 }

/-! ## Record codec and store (`cache/cache.go`, lines 15-34 and 111-235) -/

/-- Go struct `ResponseData`. `CreatedAt` and `TTL` are `uint32`,
`StatusCode` and `Compress` are `uint16`. -/
structure ResponseData where
  CreatedAt : Nat
  StatusCode : Nat
  Compress : Nat
  TTL : Nat
  Header : Bytes
  Body : Bytes
  deriving DecidableEq, Repr

/-- The fields of a `ResponseData` fit their Go types. -/
def ResponseData.WellTyped (r : ResponseData) : Prop :=
  r.CreatedAt < 2 ^ 32 ∧ r.StatusCode < 2 ^ 16 ∧ r.Compress < 2 ^ 16 ∧ r.TTL < 2 ^ 32

instance (r : ResponseData) : Decidable r.WellTyped := by
  unfold ResponseData.WellTyped; infer_instance

def createIndex : Nat := 0
def statusCodeIndex : Nat := 4
def compressIndex : Nat := 6
def ttlIndex : Nat := 8
def headerLengthIndex : Nat := 12
def headerIndex : Nat := 14

/-- The integer/byte conversions of package `util`
(`util.ConvertUint32ToBytes`, ...). Package `util` is not part of the sources
at hand, so the four functions are a parameter of the embedding. -/
structure Util where
  ConvertUint32ToBytes : Nat → Bytes
  ConvertUint16ToBytes : Nat → Bytes
  ConvertBytesToUint32 : Bytes → Nat
  ConvertBytesToUint16 : Bytes → Nat

/-- The conversions are mutually inverse fixed-width encodings: 4 and 2
bytes wide, decoding what was encoded, and decoding to a value of the
declared result type (`uint32`, `uint16`). -/
structure Util.Inverse (u : Util) : Prop where
  len32 : ∀ x, x < 2 ^ 32 → (u.ConvertUint32ToBytes x).length = 4
  len16 : ∀ x, x < 2 ^ 16 → (u.ConvertUint16ToBytes x).length = 2
  inv32 : ∀ x, x < 2 ^ 32 → u.ConvertBytesToUint32 (u.ConvertUint32ToBytes x) = x
  inv16 : ∀ x, x < 2 ^ 16 → u.ConvertBytesToUint16 (u.ConvertUint16ToBytes x) = x
  rng32 : ∀ b, u.ConvertBytesToUint32 b < 2 ^ 32
  rng16 : ∀ b, u.ConvertBytesToUint16 b < 2 ^ 16

/-- Little-endian digits of `x`, `n` bytes wide. -/
def leBytes : Nat → Nat → Bytes
  | 0, _ => []
  | n + 1, x => x % 256 :: leBytes n (x / 256)

/-- Little-endian value of the first `n` bytes of a byte string (a missing
byte counts as 0, a byte is reduced modulo 256). -/
def leValue : Nat → Bytes → Nat
  | 0, _ => 0
  | n + 1, b => b.headD 0 % 256 + 256 * leValue n b.tail

/-- A concrete instance of the `util` conversions (little-endian, fixed
width), used to run the code on examples. -/
def leUtil : Util where
  ConvertUint32ToBytes := leBytes 4
  ConvertUint16ToBytes := leBytes 2
  ConvertBytesToUint32 := leValue 4
  ConvertBytesToUint16 := leValue 2

/-- Go slice expression `d[lo:hi]` on a slice whose capacity is its length. -/
def sliceRange (d : Bytes) (lo hi : Nat) : Except Fault Bytes :=
  if lo ≤ hi ∧ hi ≤ d.length then .ok ((d.take hi).drop lo) else .error .panic

/-- Go slice expression `d[lo:]`. -/
def sliceFrom (d : Bytes) (lo : Nat) : Except Fault Bytes :=
  if lo ≤ d.length then .ok (d.drop lo) else .error .panic

/-- Modelled from the spec: a bucket of the embedded key-value engine
(`bolt.Bucket`, an external collaborator), as a finite list of key/value
pairs. -/
abbrev Bucket := List (Bytes × Bytes)

/-- Modelled from the spec: `get(bucket, key)` gives the stored bytes, or
nothing when the key is absent. -/
def Bucket.get (b : Bucket) (key : Bytes) : Option Bytes := b.lookup key

/-- Modelled from the spec: `delete(bucket, key)`, idempotent. -/
def Bucket.delete (b : Bucket) (key : Bytes) : Bucket := b.filter (fun kv => kv.1 ≠ key)

/-- Modelled from the spec: `put(bucket, key, bytes)` replaces the value of
the key atomically. -/
def Bucket.put (b : Bucket) (key val : Bytes) : Bucket := (key, val) :: Bucket.delete b key

/-- Modelled from the spec: the opened database (`*bolt.DB`), a map from
bucket names to buckets. -/
abbrev DB := Bytes → Option Bucket

/-- Go `db[bucket] = b` in the model of the database. -/
def DB.set (db : DB) (bucket : Bytes) (b : Bucket) : DB :=
  fun n => if n = bucket then some b else db n

/-- The longest key `Put` of the key-value engine accepts (`bolt.MaxKeySize`). -/
def MaxKeySize : Nat := 32768

/-- The longest value `Put` of the key-value engine accepts
(`bolt.MaxValueSize`, `(1 << 31) - 2`). -/
def MaxValueSize : Nat := 2 ^ 31 - 2

/-- The error `b.Put(key, value)` of the key-value engine returns in a
writable transaction on a bucket of plain key/value pairs, `none` being nil:
`ErrKeyRequired` for an empty key, `ErrKeyTooLarge` for a key longer than
`MaxKeySize`, `ErrValueTooLarge` for a value longer than `MaxValueSize`.
When it returns an error nothing is stored. -/
def putError (key val : Bytes) : Option GoError :=
  if key.length = 0 then some .ErrKeyRequired
  else if key.length > MaxKeySize then some .ErrKeyTooLarge
  else if val.length > MaxValueSize then some .ErrValueTooLarge
  else none

/-- Go `InitBucket(bucket)`; `client` is the package-level `*bolt.DB`
(`none` when nil). `tx.CreateBucketIfNotExists` returns
`ErrBucketNameRequired` for an empty name, and `InitBucket` returns that
error. -/
def InitBucket (client : Option DB) (bucket : Bytes) : Except Fault DB :=
  match client with
  | none => .error (.err .ErrDbNotInit)
  | some db =>
    if bucket.length = 0 then .error (.err .ErrBucketNameRequired)
    else
      match db bucket with
      | some _ => .ok db
      | none => .ok (DB.set db bucket [])

/-- Go `Save(bucket, key, buf)`. `tx.Bucket` gives nil for a bucket that was
never created and `b.Put` then dereferences nil; the error of `b.Put` is the
error of `Save`, and the update is then not committed. -/
def Save (client : Option DB) (bucket key buf : Bytes) : Except Fault DB :=
  match client with
  | none => .error (.err .ErrDbNotInit)
  | some db =>
    match db bucket with
    | none => .error .panic
    | some b =>
      match putError key buf with
      | some e => .error (.err e)
      | none => .ok (DB.set db bucket (Bucket.put b key buf))

/-- Go `Get(bucket, key)`; a nil slice is `none`. -/
def Get (client : Option DB) (bucket key : Bytes) : Except Fault (Option Bytes) :=
  match client with
  | none => .error (.err .ErrDbNotInit)
  | some db =>
    match db bucket with
    | none => .error .panic
    | some b => .ok (Bucket.get b key)

/-- The value `createdAt` that `SaveResponseData` writes: `respData.CreatedAt`,
or the clock reading `now` when that is 0. -/
def storedCreatedAt (now : Nat) (r : ResponseData) : Nat :=
  if r.CreatedAt = 0 then now else r.CreatedAt

/-- The byte string `data` that `SaveResponseData` builds
(`bytes.Join(s, []byte(""))`); `uint16(len(header))` truncates. -/
def recordBytes (u : Util) (now : Nat) (r : ResponseData) : Bytes :=
  u.ConvertUint32ToBytes (storedCreatedAt now r) ++
  (u.ConvertUint16ToBytes r.StatusCode ++
  (u.ConvertUint16ToBytes r.Compress ++
  (u.ConvertUint32ToBytes r.TTL ++
  (u.ConvertUint16ToBytes (r.Header.length % 2 ^ 16) ++
  (r.Header ++ r.Body)))))

/-- Go `SaveResponseData(bucket, key, respData)`; `now` is the reading of
`util.GetSeconds()` (used only when `CreatedAt` is 0). -/
def SaveResponseData (u : Util) (now : Nat) (client : Option DB) (bucket key : Bytes)
    (r : ResponseData) : Except Fault DB :=
  Save client bucket key (recordBytes u now r)

/-- The parsing part of `GetResponse`, on non-empty `data`. `headerLength`
is a `uint16`, so `headerIndex+headerLength` is computed in `uint16` and
wraps modulo `2 ^ 16`. Go evaluates the operands in source order:
`data[headerLengthIndex:headerIndex]` first, then the fields of the
composite literal. -/
def parseResponse (u : Util) (data : Bytes) : Except Fault ResponseData := do
  let hl ← sliceRange data headerLengthIndex headerIndex
  let headerLength := u.ConvertBytesToUint16 hl
  let c ← sliceRange data createIndex statusCodeIndex
  let sc ← sliceRange data statusCodeIndex compressIndex
  let cp ← sliceRange data compressIndex ttlIndex
  let t ← sliceRange data ttlIndex headerLengthIndex
  let h ← sliceRange data headerIndex ((headerIndex + headerLength) % 2 ^ 16)
  let b ← sliceFrom data ((headerIndex + headerLength) % 2 ^ 16)
  pure { CreatedAt := u.ConvertBytesToUint32 c
         StatusCode := u.ConvertBytesToUint16 sc
         Compress := u.ConvertBytesToUint16 cp
         TTL := u.ConvertBytesToUint32 t
         Header := h
         Body := b }

/-- Go `GetResponse(bucket, key)`: `(nil, nil)` is `.ok none`. -/
def GetResponse (u : Util) (client : Option DB) (bucket key : Bytes) :
    Except Fault (Option ResponseData) :=
  match Get client bucket key with
  | .error f => .error f
  | .ok none => .ok none
  | .ok (some data) =>
    if data.length = 0 then .ok none
    else
      match parseResponse u data with
      | .error f => .error f
      | .ok r => .ok (some r)

/-- The body of the loop of `ClearExpiredResponseData` run over the pairs
the cursor visits (modelled from the spec: the scan visits every pair the
bucket held when it started, deleting visited keys as it goes). -/
def sweepLoop (u : Util) (expiredTime : Nat) : List (Bytes × Bytes) → Bucket → Except Fault Bucket
  | [], b => .ok b
  | (k, v) :: rest, b =>
    match sliceRange v createIndex statusCodeIndex with
    | .error f => .error f
    | .ok c =>
      match sliceRange v ttlIndex headerLengthIndex with
      | .error f => .error f
      | .ok t =>
        let createdAt := u.ConvertBytesToUint32 c
        let ttl := u.ConvertBytesToUint32 t
        if expiredTime > addU32 createdAt ttl then
          sweepLoop u expiredTime rest (Bucket.delete b k)
        else
          sweepLoop u expiredTime rest b

/-- Go `ClearExpiredResponseData(bucket)`; `now` is the reading of
`util.GetSeconds()`. -/
def ClearExpiredResponseData (u : Util) (now : Nat) (client : Option DB) (bucket : Bytes) :
    Except Fault DB :=
  match client with
  | none => .error (.err .ErrDbNotInit)
  | some db =>
    match db bucket with
    | none => .error .panic
    | some b =>
      match sweepLoop u now b b with
      | .error f => .error f
      | .ok b1 => .ok (DB.set db bucket b1)

/-- The header-length field of a stored value of at least 14 bytes:
`b2uint16(data[headerLengthIndex:headerIndex])`. -/
def headerLengthOf (u : Util) (d : Bytes) : Nat :=
  u.ConvertBytesToUint16 ((d.take headerIndex).drop headerLengthIndex)

/-- The value `v` was written by `SaveResponseData` (at some clock reading,
for some well-typed record), with `createdAt` and `ttl` the values it stored
in the two 32-bit fields. -/
def WrittenBySave (u : Util) (v : Bytes) (createdAt ttl : Nat) : Prop :=
  ∃ (r : ResponseData) (t : Nat), r.WellTyped ∧ t < 2 ^ 32 ∧ v = recordBytes u t r ∧
    createdAt = storedCreatedAt t r ∧ ttl = r.TTL

/-! ## HTTPCache (`cache/http_cache.go`) -/

def StatusUnknown : Int := 0
def StatusFetching : Int := 1
def StatusHitForPass : Int := 2
def StatusCachable : Int := 3
def StatusPassed : Int := 4

/-- Go struct `HTTPData`. -/
structure HTTPData where
  Headers : List (List Bytes)
  StatusCode : Int
  GzipBody : Bytes
  BrBody : Bytes
  RawBody : Bytes
  deriving DecidableEq, Repr

/-- Go struct `HTTPCache` (without the mutex); `chans` holds the indices of
the `chan bool` values, and `nextChan` counts the channels `make` has
allocated so far, so that `make(chan bool)` yields the fresh index
`nextChan`. -/
structure HTTPCache where
  status : Int
  chans : List Nat
  data : Option HTTPData
  createdAt : Int
  expiredAt : Int
  nextChan : Nat
  deriving DecidableEq, Repr

/-- Go `NewHTTPCache()`: the zero value. -/
def NewHTTPCache : HTTPCache :=
  { status := 0, chans := [], data := none, createdAt := 0, expiredAt := 0, nextChan := 0 }

/-- Go `(hc *HTTPCache) get()`; `now` is `int(time.Now().Unix())`. Returns
`(status, done, data)` and the cache afterwards. -/
def HTTPCache.get (now : Int) (hc : HTTPCache) : (Int × Option Nat × Option HTTPData) × HTTPCache :=
  let hc1 : HTTPCache :=
    if hc.expiredAt ≠ 0 ∧ hc.expiredAt < now then { hc with status := StatusUnknown } else hc
  let (done, hc2) : Option Nat × HTTPCache :=
    if hc1.status = StatusFetching then
      (some hc1.nextChan,
        { hc1 with chans := hc1.chans ++ [hc1.nextChan], nextChan := hc1.nextChan + 1 })
    else (none, hc1)
  let hc3 : HTTPCache :=
    if hc2.status = StatusUnknown then { hc2 with status := StatusFetching, chans := [] } else hc2
  let status := hc3.status
  let data := if status = StatusCachable then hc3.data else none
  ((status, done, data), hc3)

/-- A sequence of `get()` calls at the given clock times with nothing in
between; returns the `(status, done)` part of each result, in order. -/
def HTTPCache.getSeq : List Int → HTTPCache → List (Int × Option Nat)
  | [], _ => []
  | now :: ts, hc =>
    let (r, hc1) := HTTPCache.get now hc
    (r.1, r.2.1) :: HTTPCache.getSeq ts hc1

/-- A call of `get()` made the caller the fetcher: it returned
`StatusFetching` with a nil `done` channel. -/
def isFetcher (r : Int × Option Nat) : Bool := r.1 = StatusFetching && r.2 = none

/-! ## Responder (`middleware/responder.go`) -/

/-- The constants of package `df` the responder uses (`df.BR`, `df.GZIP`,
`df.HeaderAge`) and `cod.HeaderContentEncoding`. The packages are not part
of the sources at hand, so the constants are a parameter of the embedding. -/
structure DF where
  BR : String
  GZIP : String
  HeaderAge : String
  HeaderContentEncoding : String
  deriving DecidableEq, Repr

/-- The values the spec gives for the constants: encodings `br` and `gzip`,
headers `Age` and `Content-Encoding`. -/
def specDF : DF :=
  { BR := "br", GZIP := "gzip", HeaderAge := "Age", HeaderContentEncoding := "Content-Encoding" }

/-- The `cache.HTTPCache` the responder reads: the fields `responder.go`
uses, a nil `*bytes.Buffer` being `none`. -/
structure CachedResp where
  Status : Int
  Headers : List (String × List String)
  StatusCode : Int
  CreatedAt : Int
  BrBody : Option Bytes
  GzipBody : Option Bytes
  Body : Option Bytes
  deriving DecidableEq, Repr

/-- What `c.Get(df.Cache)` yields: nil, a `*cache.HTTPCache`, or a value of
another type. -/
inductive CacheSlot where
  | absent
  | httpCache (hc : CachedResp)
  | otherType
  deriving DecidableEq, Repr

/-- The part of `cod.Context` the responder reads and writes. `Headers` are
the response headers as the list of `(key, value)` pairs set so far. -/
structure Context where
  acceptEncoding : String
  cacheSlot : CacheSlot
  BodyBuffer : Option Bytes
  StatusCode : Int
  Headers : List (String × String)
  deriving DecidableEq, Repr

/-- Go `c.SetHeader(k, v)`: the header `k` now has the single value `v`. -/
def Context.SetHeader (c : Context) (k v : String) : Context :=
  { c with Headers := c.Headers.filter (fun kv => kv.1 ≠ k) ++ [(k, v)] }

/-- Go `strings.Contains(s, sub)`. -/
def stringsContains (s sub : String) : Bool := decide (sub.toList <:+: s.toList)

/-- The loop `for k, value := range hc.Headers { for _, v := range value
{ c.SetHeader(k, v) } }`. -/
def copyHeaders (hs : List (String × List String)) (c : Context) : Context :=
  hs.foldl (fun c kv => kv.2.foldl (fun c v => Context.SetHeader c kv.1 v) c) c

/-- Lines 49-61 of the handler: copy the cached headers to the response, set
the status code, and set `Age` when the response is older than 0 seconds;
`now` is `time.Now().Unix()`. -/
def respondHead (df : DF) (now : Int) (hc : CachedResp) (c : Context) : Context :=
  let c1 := copyHeaders hc.Headers c
  let c2 := { c1 with StatusCode := hc.StatusCode }
  let age := now - hc.CreatedAt
  if age > 0 then Context.SetHeader c2 df.HeaderAge (toString age) else c2

/-- Lines 83-87 of the handler: `c.BodyBuffer = buf`, and `Content-Encoding`
is set when `encoding != ""`. -/
def respondBody (df : DF) (c : Context) (buf : Option Bytes) (encoding : String) : Context :=
  let c1 := { c with BodyBuffer := buf }
  if encoding ≠ "" then Context.SetHeader c1 df.HeaderContentEncoding encoding else c1

/-- The handler returned by Go `NewResponder()`, after `c.Next()` has run:
`nextErr` is what `c.Next()` returned and `c` the context it left.
`cacheable` is the constant `cache.Cacheable`, `gunzip` is `cache.Gunzip`
(an error is an error code) and `now` is `time.Now().Unix()`. Returns the
handler's `err` and the context afterwards. -/
def NewResponder (df : DF) (cacheable : Int) (gunzip : Bytes → Except Nat Bytes) (now : Int)
    (nextErr : Option GoError) (c : Context) : Option GoError × Context :=
  if nextErr ≠ none ∨ c.BodyBuffer ≠ none then (nextErr, c)
  else
    match c.cacheSlot with
    | .absent => (none, c)
    | .otherType => (some .errCacheInvalid, c)
    | .httpCache hc =>
      if hc.Status ≠ cacheable then (none, c)
      else
        let acceptEncoding := c.acceptEncoding
        let c1 := respondHead df now hc c
        if hc.BrBody ≠ none ∧ stringsContains acceptEncoding df.BR then
          (none, respondBody df c1 hc.BrBody df.BR)
        else if hc.GzipBody ≠ none ∧ stringsContains acceptEncoding df.GZIP then
          (none, respondBody df c1 hc.GzipBody df.GZIP)
        else
          match hc.GzipBody with
          | some gz =>
            match gunzip gz with
            | .error e => (some (.other e), c1)
            | .ok rawData => (none, respondBody df c1 (some rawData) "")
          | none => (none, respondBody df c1 hc.Body "")

/-- The response carries a header with key `k`. -/
def Context.hasHeader (c : Context) (k : String) : Bool := c.Headers.any (fun kv => kv.1 = k)

/-! ## Sample data -/

/-- A stand-in for `cache.Gunzip` on examples: it strips a leading byte 31
and fails (error code 1) on anything else. -/
def sampleGunzip : Bytes → Except Nat Bytes
  | 31 :: rest => .ok rest
  | _ => .error 1

/-- A Cacheable record holding only a brotli variant. -/
def brOnlyResp : CachedResp :=
  { Status := 4, Headers := [("Token", ["A"])], StatusCode := 200, CreatedAt := 90,
    BrBody := some [66, 82], GzipBody := none, Body := none }

/-- A Cacheable record holding only a gzip variant. -/
def gzipOnlyResp : CachedResp :=
  { Status := 4, Headers := [("Token", ["A"])], StatusCode := 200, CreatedAt := 90,
    BrBody := none, GzipBody := some [31, 104, 105], Body := none }

/-- The context of a request with the given `Accept-Encoding`, after
`c.Next()` has put the cached response in it. -/
def requestContext (acceptEncoding : String) (hc : CachedResp) : Context :=
  { acceptEncoding := acceptEncoding, cacheSlot := .httpCache hc, BodyBuffer := none,
    StatusCode := 0, Headers := [] }

/-- The table after one fetcher and two parked callers on key `[1]`. -/
def parkedTable : Table :=
  (getSeq sampleVars [1] [(5, 5), (6, 6), (7, 7)] Table.empty).2

/-- An `HTTPCache` holding a cacheable response whose `expiredAt` (100) is
non-zero. -/
def expiredHTTPCache : HTTPCache :=
  { status := StatusCachable, chans := [], data := none, createdAt := 40, expiredAt := 100,
    nextChan := 0 }

/-- A database holding the single, empty bucket `[98]`. -/
def sampleDB : DB := DB.set (fun _ => none) [98] []

/-- A small well-typed record. -/
def sampleRecord : ResponseData :=
  { CreatedAt := 1000, StatusCode := 200, Compress := 0, TTL := 600, Header := [7, 8, 9],
    Body := [1, 2] }

/-- A well-typed record whose header is 65522 bytes long. -/
def longHeaderRecord : ResponseData :=
  { CreatedAt := 1000, StatusCode := 200, Compress := 0, TTL := 600,
    Header := List.replicate 65522 0, Body := [1, 2] }

/-- A well-typed record whose header is 65536 bytes long. -/
def oversizedHeaderRecord : ResponseData :=
  { CreatedAt := 1000, StatusCode := 200, Compress := 0, TTL := 600,
    Header := List.replicate 65536 0, Body := [1, 2] }

/-- A database whose bucket `[98]` holds the three-byte value `[1, 2, 3]`
under key `[107]`. -/
def corruptDB : DB := DB.set (fun _ => none) [98] [([107], [1, 2, 3])]

/-- A record created at time 10 with TTL 5. -/
def oldRecord : ResponseData :=
  { CreatedAt := 10, StatusCode := 200, Compress := 0, TTL := 5, Header := [7], Body := [1, 2] }

/-- A record saved with `CreatedAt == 0` (filled from the clock) and TTL 1. -/
def autoRecord : ResponseData :=
  { CreatedAt := 0, StatusCode := 204, Compress := 0, TTL := 1, Header := [], Body := [] }

/-- A bucket of two records, both expired at time 100. -/
def expiredBucket : Bucket :=
  [([1], recordBytes leUtil 0 oldRecord), ([2], recordBytes leUtil 20 autoRecord)]

/-! ## Status table: call sequences -/

/-- One call on the status table of `cache.go`. -/
inductive Call where
  | get (key : Bytes) (tExp tInit : Nat)
  | hitForPass (key : Bytes) (ttl : Nat)
  | cacheable (key : Bytes) (ttl : Nat)
  deriving DecidableEq, Repr

/-- The table after one call, or the fault that stops the call. -/
def step (v : Vars) (s : Table) : Call → Except Fault Table
  | .get key tExp tInit => .ok (GetRequestStatus v tExp tInit key s).2
  | .hitForPass key ttl => HitForPass v key ttl s
  | .cacheable key ttl => Cacheable v key ttl s

/-- The table after a sequence of calls, in order; a fault in any call stops
the sequence. -/
def run (v : Vars) : List Call → Table → Except Fault Table
  | [], s => .ok s
  | c :: cs, s =>
    match step v s c with
    | .error f => .error f
    | .ok s1 => run v cs s1

/-- The invariant of the status table: every waiter list holds distinct
channels that are open and empty, the waiter lists of different keys share no
channel, and every channel of the heap is either open and empty or closed
with exactly one value in its buffer. -/
def TableInv (s : Table) : Prop :=
  (∀ key rs, s.rsMap key = some rs →
    rs.waitingChans.Nodup ∧ ∀ c ∈ rs.waitingChans, s.chans[c]? = some ⟨[], false⟩) ∧
  (∀ k1 k2 rs1 rs2, k1 ≠ k2 → s.rsMap k1 = some rs1 → s.rsMap k2 = some rs2 →
    ∀ c ∈ rs1.waitingChans, c ∉ rs2.waitingChans) ∧
  (∀ ch ∈ s.chans, ch = ⟨[], false⟩ ∨ ∃ x, ch = ⟨[x], true⟩)

/-! ## HTTPCache transitions (`cache/http_cache.go`, lines 142-169) -/

/-- An unbuffered `chan bool` made by `get()`: the values sent on it so far.
The only receive on such a channel is the single `<-done` of `Get()`, so a
send succeeds while nothing has been sent yet and blocks for ever
afterwards. -/
structure BoolChan where
  sent : List Bool
  deriving DecidableEq, Repr

/-- Go `int` arithmetic result (64 bits, two's complement). -/
def wrapInt (x : Int) : Int := (x + 2 ^ 63) % 2 ^ 64 - 2 ^ 63

/-- Go `ch <- true` on an unbuffered channel of `get()`. -/
def boolChanSend (heap : List BoolChan) (c : Nat) : Except Fault (List BoolChan) :=
  match heap[c]? with
  | none => .error .panic
  | some ch => if ch.sent = [] then .ok (heap.set c ⟨ch.sent ++ [true]⟩) else .error .blocked

/-- The loop `for _, ch := range hc.chans { ch <- true }`. -/
def sendAll : List Nat → List BoolChan → Except Fault (List BoolChan)
  | [], heap => .ok heap
  | c :: cs, heap =>
    match boolChanSend heap c with
    | .error f => .error f
    | .ok heap1 => sendAll cs heap1

/-- Go `(hc *HTTPCache) HitForPass(ttl)`; `now` is `int(time.Now().Unix())`
and `heap` the channels made so far. -/
def HTTPCache.HitForPass (now ttl : Int) (hc : HTTPCache) (heap : List BoolChan) :
    Except Fault (HTTPCache × List BoolChan) :=
  let hc1 := { hc with expiredAt := wrapInt (now + ttl), status := StatusHitForPass }
  match sendAll hc1.chans heap with
  | .error f => .error f
  | .ok heap1 => .ok (hc1, heap1)

/-- Go `(hc *HTTPCache) Cachable(ttl, statusCode, rawBody, gzipBody, brBody)`;
`now` is `int(time.Now().Unix())`. -/
def HTTPCache.Cachable (now ttl statusCode : Int) (rawBody gzipBody brBody : Bytes)
    (hc : HTTPCache) (heap : List BoolChan) : Except Fault (HTTPCache × List BoolChan) :=
  let hc1 := { hc with
    createdAt := now
    expiredAt := wrapInt (now + ttl)
    status := StatusCachable
    data := some { Headers := [], StatusCode := statusCode, GzipBody := gzipBody,
                   BrBody := brBody, RawBody := rawBody } }
  match sendAll hc1.chans heap with
  | .error f => .error f
  | .ok heap1 => .ok (hc1, heap1)

/-- An `HTTPCache` in `StatusFetching` with one parked waiter, on channel 0. -/
def fetchingHTTPCache : HTTPCache :=
  { status := StatusFetching, chans := [0], data := none, createdAt := 0, expiredAt := 0,
    nextChan := 1 }

/-! ## Dispatcher (`middleware/dispatcher.go`) -/

/-- The fields of `cache.Response` that `dispatcher.go` uses. -/
structure Response where
  CreatedAt : Nat
  StatusCode : Nat
  TTL : Nat
  CompressLevel : Int
  CompressMinLength : Int
  Body : Bytes
  GzipBody : Bytes
  BrBody : Bytes
  deriving DecidableEq, Repr

/-- The constants of package `vars` that `dispatcher.go` uses
(`vars.CompressMinLength`, `vars.HitForPassTTL`) and the request-status
constants `cache.Pass` and `cache.Cacheable`. The packages are not part of
the sources at hand, so the constants are a parameter of the embedding. -/
structure DispatcherVars where
  CompressMinLength : Int
  HitForPassTTL : Nat
  Pass : Int
  Cacheable : Int
  deriving DecidableEq, Repr

/-- The compression functions of package `util` that `save` calls. `Gunzip`
gives `none` for a non-nil error; the errors of `Gzip` and `BrotliEncode` are
discarded by `save`, so only the bytes they return matter. -/
structure Compression where
  Gunzip : Bytes → Option Bytes
  Gzip : Bytes → Int → Bytes
  BrotliEncode : Bytes → Int → Bytes

/-- What the store step does that is visible outside it: calls of the
compression functions and of the cache client, in order. -/
inductive Event where
  | gunzip (data : Bytes)
  | gzip (data : Bytes) (level : Int)
  | brotliEncode (data : Bytes) (level : Int)
  | saveResponse (identity : Bytes) (resp : Response)
  | cacheable (identity : Bytes) (ttl : Nat)
  | hitForPass (identity : Bytes) (ttl : Nat)
  deriving DecidableEq, Repr

/-- The closure `doSave` of Go `save`: `client.SaveResponse(identity, resp)`
then `client.Cacheable(identity, resp.TTL)`. -/
def doSave (identity : Bytes) (resp : Response) : List Event :=
  [.saveResponse identity resp, .cacheable identity resp.TTL]

/-- Lines 64-89 of Go `save`, once the raw `body` is known. -/
def saveBody (dv : DispatcherVars) (cp : Compression) (identity : Bytes) (resp : Response)
    (level compressMinLength : Int) (body : Bytes) : List Event :=
  let bodyLength : Int := body.length
  if bodyLength = 0 then [.hitForPass identity dv.HitForPassTTL]
  else if bodyLength < compressMinLength then doSave identity resp
  else
    let (ev1, resp1) : List Event × Response :=
      if resp.GzipBody.length = 0 then
        let gzipBody := cp.Gzip body level
        ([.gzip body level],
          if gzipBody.length ≠ 0 then { resp with GzipBody := gzipBody, Body := [] } else resp)
      else ([], resp)
    let (ev2, resp2) : List Event × Response :=
      if resp1.BrBody.length = 0 then
        ([.brotliEncode body level], { resp1 with BrBody := cp.BrotliEncode body level })
      else ([], resp1)
    ev1 ++ ev2 ++ doSave identity resp2

/-- The minimum length `save` compares the raw body with:
`resp.CompressMinLength`, or `vars.CompressMinLength` when that is 0. -/
def effectiveMinLength (dv : DispatcherVars) (resp : Response) : Int :=
  if resp.CompressMinLength = 0 then dv.CompressMinLength else resp.CompressMinLength

/-- Go `save(client, identity, resp, compressible)`: the calls it makes, in
order. `http.StatusNoContent` is 204. -/
def save (dv : DispatcherVars) (cp : Compression) (identity : Bytes) (resp : Response)
    (compressible : Bool) : List Event :=
  let level := resp.CompressLevel
  let compressMinLength := effectiveMinLength dv resp
  if resp.StatusCode = 204 ∨ compressible = false then doSave identity resp
  else if resp.Body.length = 0 ∧ resp.GzipBody.length ≠ 0 then
    match cp.Gunzip resp.GzipBody with
    | none => .gunzip resp.GzipBody :: doSave identity resp
    | some unzipBody =>
      .gunzip resp.GzipBody :: saveBody dv cp identity resp level compressMinLength unzipBody
  else saveBody dv cp identity resp level compressMinLength resp.Body

/-- The store step of Go `Dispatcher` (lines 121-122 and 167-181): the calls
the goroutine makes. `status` is `c.Get(vars.Status)`, `identity` is
`c.Get(vars.Identity)` (`none` when it is not a `[]byte`), `cr` the response
of the context, `compressible` the result of `shouldCompress`, and
`compressMinLength`, `compressLevel` come from the configuration. -/
def dispatcherStore (dv : DispatcherVars) (cp : Compression) (compressMinLength compressLevel : Int)
    (status : Int) (identity : Option Bytes) (cr : Response) (compressible : Bool) : List Event :=
  let cr1 := { cr with CompressMinLength := compressMinLength, CompressLevel := compressLevel }
  if status ≠ dv.Cacheable ∧ status ≠ dv.Pass then
    match identity with
    | none => []
    | some id =>
      if cr1.TTL = 0 then [.hitForPass id dv.HitForPassTTL]
      else save dv cp id cr1 compressible
  else []

/-- The values the spec gives for the constants (`compressMinLength` 1024,
`hitForPassTTL` 300), with `Pass = 0` and `Cacheable = 4`. -/
def specDispatcherVars : DispatcherVars :=
  { CompressMinLength := 1024, HitForPassTTL := 300, Pass := 0, Cacheable := 4 }

/-- A stand-in for the compression functions on examples: gzip data is the
raw data behind a byte 31, brotli data the raw data behind a byte 66. -/
def sampleCompression : Compression where
  Gunzip := fun b => match b with
    | 31 :: rest => some rest
    | _ => none
  Gzip := fun b _ => 31 :: b
  BrotliEncode := fun b _ => 66 :: b

/-- A response with the raw body `abcd` only. -/
def abcdResponse : Response :=
  { CreatedAt := 0, StatusCode := 200, TTL := 600, CompressLevel := 0, CompressMinLength := 0,
    Body := [97, 98, 99, 100], GzipBody := [], BrBody := [] }

/-- A response that arrived from upstream with only the gzip form of `abcd`. -/
def gzipAbcdResponse : Response :=
  { CreatedAt := 0, StatusCode := 200, TTL := 600, CompressLevel := 0, CompressMinLength := 0,
    Body := [], GzipBody := [31, 97, 98, 99, 100], BrBody := [] }

/-- A response whose gzip variant cannot be decompressed. -/
def badGzipResponse : Response :=
  { CreatedAt := 0, StatusCode := 200, TTL := 600, CompressLevel := 0, CompressMinLength := 2,
    Body := [], GzipBody := [9, 9], BrBody := [] }

/-- A body-bearing response (status 200) whose variants are all empty. -/
def emptyResponse : Response :=
  { CreatedAt := 0, StatusCode := 200, TTL := 600, CompressLevel := 0, CompressMinLength := 0,
    Body := [], GzipBody := [], BrBody := [] }

/-- A response that arrived with only the gzip form of `abcd` and a minimum
compression length of 2. -/
def gzipLongResponse : Response :=
  { CreatedAt := 0, StatusCode := 200, TTL := 600, CompressLevel := 5, CompressMinLength := 2,
    Body := [], GzipBody := [31, 97, 98, 99, 100], BrBody := [] }

/-! ## Status table: waiters and resolved entries -/

/-- An invariant of the status table: an entry in `Fetching` has TTL 0, and
an entry that holds waiter channels is in `Fetching`. -/
def WaitersFetching (v : Vars) (s : Table) : Prop :=
  ∀ key rs, s.rsMap key = some rs →
    (rs.status = v.Fetching → rs.ttl = 0) ∧ (rs.waitingChans ≠ [] → rs.status = v.Fetching)

/-- The table after `GetRequestStatus([1])` at times 5 and 6 on the empty
table: one fetcher and one parked caller. -/
def oneWaiterTable : Table :=
  (GetRequestStatus sampleVars 6 6 [1] (GetRequestStatus sampleVars 5 5 [1] Table.empty).2).2

/-! ## HTTPCache.Get (`cache/http_cache.go`, lines 100-109) -/

/-- Go `(hc *HTTPCache) Get()`. `get()` runs at clock time `now`. When it
returns a `done` channel the caller blocks in `<-done`; `env` is what the
other goroutines do to the cache from then until the caller, having received,
reads `hc.status` and `hc.data` (at least the transition that sends on
`done`). A caller whose channel is never sent on stays blocked. Returns
`(status, data)`, the cache and the channels afterwards. -/
def HTTPCache.Get (now : Int)
    (env : HTTPCache → List BoolChan → Except Fault (HTTPCache × List BoolChan))
    (hc : HTTPCache) (heap : List BoolChan) :
    Except Fault ((Int × Option HTTPData) × HTTPCache × List BoolChan) :=
  let (r, hc1) := HTTPCache.get now hc
  match r.2.1 with
  | none => .ok ((r.1, r.2.2), hc1, heap)
  | some done =>
    match env hc1 (heap ++ [⟨[]⟩]) with
    | .error f => .error f
    | .ok (hc2, heap2) =>
      match heap2[done]? with
      | some ⟨_ :: _⟩ => .ok ((hc2.status, hc2.data), hc2, heap2)
      | _ => .error .blocked

/-- The data of a cached response with raw body `[1, 2]`, as `Cachable`
stores it. -/
def sampleHTTPData : HTTPData :=
  { Headers := [], StatusCode := 200, GzipBody := [], BrBody := [], RawBody := [1, 2] }

/-- An `HTTPCache` that was made cacheable at time 100 with TTL 10 and whose
expiry was seen by a `get()` at time 200: it is in `StatusFetching` again and
still holds the data of the earlier `Cachable` call. -/
def refetchingHTTPCache : HTTPCache :=
  { status := StatusFetching, chans := [], data := some sampleHTTPData, createdAt := 100,
    expiredAt := 110, nextChan := 0 }

/-- What other goroutines do while a caller of `Get()` is parked, in one
example: the fetcher calls `Cachable` at time 100 with TTL 1 (which releases
the caller), and another request calls `get()` at time 102, before the
released caller has read `hc.status` and `hc.data`. -/
def releaseThenExpire (hc : HTTPCache) (heap : List BoolChan) :
    Except Fault (HTTPCache × List BoolChan) :=
  match HTTPCache.Cachable 100 1 200 [1, 2] [] [] hc heap with
  | .error f => .error f
  | .ok (hc1, heap1) => .ok ((HTTPCache.get 102 hc1).2, heap1)

/-! ## More sample records -/

/-- A record to be saved with `CreatedAt == 0`. -/
def zeroCreatedRecord : ResponseData :=
  { CreatedAt := 0, StatusCode := 200, Compress := 0, TTL := 600, Header := [7, 8, 9],
    Body := [1, 2] }

/-- A record with `CreatedAt == 0` whose header is 65522 bytes long. -/
def longZeroCreatedRecord : ResponseData :=
  { CreatedAt := 0, StatusCode := 200, Compress := 0, TTL := 600,
    Header := List.replicate 65522 0, Body := [1, 2] }

/-- A record with `CreatedAt == 0` whose header is 65536 bytes long. -/
def oversizedZeroCreatedRecord : ResponseData :=
  { CreatedAt := 0, StatusCode := 200, Compress := 0, TTL := 600,
    Header := List.replicate 65536 0, Body := [1, 2] }

/-- A record created at time 1700000000 with TTL 3000000000: its expiry time
4700000000 does not fit 32 bits. -/
def farFutureRecord : ResponseData :=
  { CreatedAt := 1700000000, StatusCode := 200, Compress := 0, TTL := 3000000000,
    Header := [], Body := [] }

/-- A database whose bucket `[98]` holds `farFutureRecord` under key `[1]`. -/
def farFutureDB : DB := DB.set sampleDB [98] [([1], recordBytes leUtil 0 farFutureRecord)]

/-! ## Status table: lemmas -/

theorem setRs_same (m : Bytes → Option RequestStatus) (key : Bytes) (rs : RequestStatus) :
    setRs m key rs key = some rs := by
  simp [setRs]

theorem setRs_other (m : Bytes → Option RequestStatus) (key k : Bytes) (rs : RequestStatus)
    (h : k ≠ key) : setRs m key rs k = m k := by
  simp [setRs, h]

theorem isExpired_ttl_zero (now : Nat) (rs : RequestStatus) (h : rs.ttl = 0) :
    isExpired now rs = false := by
  simp [isExpired, h]

/-- On a key without entry the caller becomes the fetcher and a fresh entry
is stored. -/
theorem GetRequestStatus_absent (v : Vars) (tExp tInit : Nat) (key : Bytes) (s : Table)
    (h : s.rsMap key = none) :
    GetRequestStatus v tExp tInit key s =
      ((v.Fetching, none),
        { s with rsMap := setRs (setRs s.rsMap key ⟨tInit, 0, 0, []⟩) key
                            ⟨tInit, 0, v.Fetching, []⟩ }) := by
  simp [GetRequestStatus, h, initRequestStatus]

/-- On an entry that is being fetched and has no TTL yet the caller parks
on a fresh channel. -/
theorem GetRequestStatus_fetching (v : Vars) (tExp tInit : Nat) (key : Bytes) (s : Table)
    (rs : RequestStatus) (h : s.rsMap key = some rs) (httl : rs.ttl = 0)
    (hst : rs.status = v.Fetching) :
    GetRequestStatus v tExp tInit key s =
      ((v.Waiting, some s.chans.length),
        { rsMap := setRs s.rsMap key { rs with waitingChans := rs.waitingChans ++ [s.chans.length] }
          chans := s.chans ++ [⟨[], false⟩] }) := by
  simp [GetRequestStatus, h, isExpired_ttl_zero _ _ httl, hst]

/-- While the entry stays in `Fetching` with TTL 0, every call parks. -/
theorem getSeq_fetching (v : Vars) (key : Bytes) (ts : List (Nat × Nat)) :
    ∀ (s : Table) (rs : RequestStatus), s.rsMap key = some rs → rs.ttl = 0 →
      rs.status = v.Fetching →
      (getSeq v key ts s).1.length = ts.length ∧
      ∀ r ∈ (getSeq v key ts s).1, ∃ c, r = (v.Waiting, some c) := by
  induction ts with
  | nil => intro s rs _ _ _; simp [getSeq]
  | cons t ts ih =>
    intro s rs h httl hst
    obtain ⟨tExp, tInit⟩ := t
    have hstep := GetRequestStatus_fetching v tExp tInit key s rs h httl hst
    have ih1 := ih
      { rsMap := setRs s.rsMap key { rs with waitingChans := rs.waitingChans ++ [s.chans.length] }
        chans := s.chans ++ [⟨[], false⟩] }
      { rs with waitingChans := rs.waitingChans ++ [s.chans.length] }
      (setRs_same s.rsMap key _) httl hst
    simp only [getSeq, hstep]
    refine ⟨by simp [ih1.1], ?_⟩
    intro r hr
    rcases List.mem_cons.mp hr with h1 | h1
    · exact ⟨_, h1⟩
    · exact ih1.2 r h1

/-- Signalling one open, empty channel puts the status in its buffer and
closes it. -/
theorem signalOne_open (st : Int) (heap : List Chan) (c : Nat)
    (h : heap[c]? = some ⟨[], false⟩) :
    signalOne st heap c = .ok (heap.set c ⟨[st], true⟩) := by
  simp [signalOne, h, chanSend, chanClose]

/-- The signalling loop over distinct, open, empty channels succeeds, leaves
every one of them holding exactly the status and closed, and touches no
other channel. -/
theorem signalAll_open (st : Int) (cs : List Nat) :
    ∀ heap : List Chan, cs.Nodup → (∀ c ∈ cs, heap[c]? = some ⟨[], false⟩) →
      ∃ heap1, signalAll st cs heap = .ok heap1 ∧
        (∀ c ∈ cs, heap1[c]? = some ⟨[st], true⟩) ∧
        (∀ i, i ∉ cs → heap1[i]? = heap[i]?) := by
  induction cs with
  | nil => intro heap _ _; exact ⟨heap, rfl, by simp, by simp⟩
  | cons c cs ih =>
    intro heap hnd hopen
    have hc : heap[c]? = some ⟨[], false⟩ := hopen c (List.mem_cons_self _ _)
    have hlt : c < heap.length := by
      rcases Nat.lt_or_ge c heap.length with h1 | h1
      · exact h1
      · rw [List.getElem?_eq_none h1] at hc; cases hc
    obtain ⟨hcn, hnd1⟩ := List.nodup_cons.mp hnd
    have hset_c : (heap.set c ⟨[st], true⟩)[c]? = some ⟨[st], true⟩ := by
      simp [List.getElem?_set, hlt]
    have hset_ne : ∀ i, i ≠ c → (heap.set c ⟨[st], true⟩)[i]? = heap[i]? := by
      intro i hi
      simp [List.getElem?_set, Ne.symm hi]
    obtain ⟨heap1, hrun, hsig, hrest⟩ := ih (heap.set c ⟨[st], true⟩) hnd1 (by
      intro c1 hc1
      have hne : c1 ≠ c := fun e => hcn (e ▸ hc1)
      rw [hset_ne c1 hne]
      exact hopen c1 (List.mem_cons_of_mem _ hc1))
    refine ⟨heap1, by simp [signalAll, signalOne_open st heap c hc, hrun], ?_, ?_⟩
    · intro c1 hc1
      rcases List.mem_cons.mp hc1 with e | hmem
      · subst e
        rw [hrest c1 hcn]; exact hset_c
      · exact hsig c1 hmem
    · intro i hi
      have hic : i ≠ c := fun e => hi (e ▸ List.mem_cons_self _ _)
      have hics : i ∉ cs := fun hm => hi (List.mem_cons_of_mem _ hm)
      rw [hrest i hics, hset_ne i hic]

/-- The transition on an entry whose waiter channels are distinct, open and
empty: it returns, the entry carries the status and TTL with no waiters and
its creation time untouched, and every waiter channel holds exactly the
status and is closed. -/
theorem trigger_open (key : Bytes) (st : Int) (ttl : Nat) (s : Table) (rs : RequestStatus)
    (h : s.rsMap key = some rs) (hnd : rs.waitingChans.Nodup)
    (hopen : ∀ c ∈ rs.waitingChans, s.chans[c]? = some ⟨[], false⟩) :
    ∃ s1, triggerWatingRequstAndSetStatus key st ttl s = .ok s1 ∧
      s1.rsMap key = some ⟨rs.createdAt, ttl, st, []⟩ ∧
      (∀ c ∈ rs.waitingChans, s1.chans[c]? = some ⟨[st], true⟩) := by
  obtain ⟨heap1, hrun, hsig, _⟩ := signalAll_open st rs.waitingChans s.chans hnd hopen
  refine ⟨⟨setRs s.rsMap key ⟨rs.createdAt, ttl, st, []⟩, heap1⟩, ?_, setRs_same _ _ _, hsig⟩
  simp [triggerWatingRequstAndSetStatus, h, hrun]

/-! ## Status table: the claims -/

/-- C1 (single flight in the status table). Starting from a table with no
entry for `key`, in any non-empty sequence of `GetRequestStatus(key)` calls
with arbitrary clock readings and nothing in between, the first call returns
`(Fetching, nil)` and every other call returns `(Waiting, c)` with `c` a
non-nil channel; as `Fetching` and `Waiting` are different constants, exactly
one call observes `Fetching`. -/
theorem single_flight_status_table (v : Vars) (key : Bytes) (s : Table) (t : Nat × Nat)
    (ts : List (Nat × Nat)) (habsent : s.rsMap key = none) (hne : v.Fetching ≠ v.Waiting) :
    ∃ rest, (getSeq v key (t :: ts) s).1 = (v.Fetching, none) :: rest ∧
      rest.length = ts.length ∧
      (∀ r ∈ rest, ∃ c, r = (v.Waiting, some c)) ∧
      ((getSeq v key (t :: ts) s).1.filter (fun r => decide (r.1 = v.Fetching))).length = 1 := by
  obtain ⟨tExp, tInit⟩ := t
  have hstep := GetRequestStatus_absent v tExp tInit key s habsent
  have hrest := getSeq_fetching v key ts
    { s with rsMap := setRs (setRs s.rsMap key ⟨tInit, 0, 0, []⟩) key ⟨tInit, 0, v.Fetching, []⟩ }
    ⟨tInit, 0, v.Fetching, []⟩ (setRs_same _ _ _) rfl rfl
  refine ⟨_, by simp only [getSeq, hstep], hrest.1, hrest.2, ?_⟩
  simp only [getSeq, hstep]
  have hnone : (getSeq v key ts
      { s with rsMap := setRs (setRs s.rsMap key ⟨tInit, 0, 0, []⟩) key
                          ⟨tInit, 0, v.Fetching, []⟩ }).1.filter
      (fun r => decide (r.1 = v.Fetching)) = [] := by
    rw [List.filter_eq_nil_iff]
    intro r hr
    obtain ⟨c, rfl⟩ := hrest.2 r hr
    simpa using Ne.symm hne
  simp [List.filter_cons, hnone]

/-- C1 at a concrete input: three calls on the empty table. -/
theorem single_flight_status_table_witness :
    Table.empty.rsMap [1] = none ∧ sampleVars.Fetching ≠ sampleVars.Waiting ∧
    ∃ rest, (getSeq sampleVars [1] [(5, 5), (6, 6), (7, 8)] Table.empty).1
        = (sampleVars.Fetching, none) :: rest ∧
      rest.length = 2 ∧
      (∀ r ∈ rest, ∃ c, r = (sampleVars.Waiting, some c)) ∧
      ((getSeq sampleVars [1] [(5, 5), (6, 6), (7, 8)] Table.empty).1.filter
        (fun r => decide (r.1 = sampleVars.Fetching))).length = 1 :=
  ⟨rfl, by decide,
    single_flight_status_table sampleVars [1] Table.empty (5, 5) [(6, 6), (7, 8)] rfl (by decide)⟩

/-- C2 (transition W2). For an existing entry whose waiter channels
`c_1..c_n` are distinct, empty and open, `HitForPass(key, ttl)` and
`Cacheable(key, ttl)` return, and afterwards the entry's status is the
assigned one, its TTL is `ttl`, its waiter list is empty, and every `c_i`
holds exactly one value, equal to the assigned status, and is closed. -/
theorem transition_signals_every_waiter (v : Vars) (key : Bytes) (ttl : Nat) (s : Table)
    (rs : RequestStatus) (h : s.rsMap key = some rs) (hnd : rs.waitingChans.Nodup)
    (hopen : ∀ c ∈ rs.waitingChans, s.chans[c]? = some ⟨[], false⟩) :
    (∃ s1, HitForPass v key ttl s = .ok s1 ∧
      s1.rsMap key = some ⟨rs.createdAt, ttl, v.HitForPass, []⟩ ∧
      (∀ c ∈ rs.waitingChans, s1.chans[c]? = some ⟨[v.HitForPass], true⟩)) ∧
    (∃ s1, Cacheable v key ttl s = .ok s1 ∧
      s1.rsMap key = some ⟨rs.createdAt, ttl, v.Cacheable, []⟩ ∧
      (∀ c ∈ rs.waitingChans, s1.chans[c]? = some ⟨[v.Cacheable], true⟩)) :=
  ⟨trigger_open key v.HitForPass ttl s rs h hnd hopen,
   trigger_open key v.Cacheable ttl s rs h hnd hopen⟩

/-- C2 at a concrete input: the entry of `parkedTable` has the two waiter
channels 0 and 1. -/
theorem transition_signals_every_waiter_witness :
    parkedTable.rsMap [1] = some ⟨5, 0, 1, [0, 1]⟩ ∧
    (∃ s1, HitForPass sampleVars [1] 300 parkedTable = .ok s1 ∧
      s1.rsMap [1] = some ⟨5, 300, 3, []⟩ ∧
      (∀ c ∈ [0, 1], s1.chans[c]? = some ⟨[3], true⟩)) ∧
    (∃ s1, Cacheable sampleVars [1] 300 parkedTable = .ok s1 ∧
      s1.rsMap [1] = some ⟨5, 300, 4, []⟩ ∧
      (∀ c ∈ [0, 1], s1.chans[c]? = some ⟨[4], true⟩)) :=
  ⟨by decide,
    transition_signals_every_waiter sampleVars [1] 300 parkedTable ⟨5, 0, 1, [0, 1]⟩
      (by decide) (by decide) (by decide)⟩

/-- C4 (TTL counts from the transition), evaluated on the code: the entry for
key `[1]` is created at clock time 100, `Cacheable([1], 1)` is called at time
102, and `GetRequestStatus([1])` at that same time 102 (within
`t <= t' <= t + ttl`) returns `(Fetching, nil)` and resets the entry, not
`(Cacheable, nil)`: `triggerWatingRequstAndSetStatus` leaves `createdAt` at
the creation time, so the TTL is counted from the creation of the entry. -/
theorem ttl_counted_from_creation :
    ∃ s2, Cacheable sampleVars [1] 1 (GetRequestStatus sampleVars 100 100 [1] Table.empty).2
        = .ok s2 ∧
      s2.rsMap [1] = some ⟨100, 1, sampleVars.Cacheable, []⟩ ∧
      (GetRequestStatus sampleVars 102 102 [1] s2).1 = (sampleVars.Fetching, none) ∧
      (GetRequestStatus sampleVars 102 102 [1] s2).1 ≠ (sampleVars.Cacheable, none) ∧
      (GetRequestStatus sampleVars 102 102 [1] s2).2.rsMap [1]
        = some ⟨102, 0, sampleVars.Fetching, []⟩ := by
  refine ⟨_, rfl, ?_, ?_, ?_, ?_⟩ <;> decide

/-- C5 (expiry-driven re-fetch). For a key whose entry has `ttl != 0` and
`now - createdAt > ttl` (the `uint32` difference the code computes, which is
the plain difference whenever `createdAt <= now`), and likewise for a key
without entry, `GetRequestStatus(key)` returns `(Fetching, nil)` and leaves
under the key a fresh entry with status `Fetching`, TTL 0, `createdAt` the
clock reading of the call and no waiters; no channel is allocated and no
other key is touched. -/
theorem expiry_driven_refetch (v : Vars) (tExp tInit : Nat) (key : Bytes) (s : Table)
    (hexp : s.rsMap key = none ∨
      ∃ rs, s.rsMap key = some rs ∧ rs.ttl ≠ 0 ∧ subU32 tExp rs.createdAt > rs.ttl) :
    (GetRequestStatus v tExp tInit key s).1 = (v.Fetching, none) ∧
    (GetRequestStatus v tExp tInit key s).2.rsMap key = some ⟨tInit, 0, v.Fetching, []⟩ ∧
    (GetRequestStatus v tExp tInit key s).2.chans = s.chans ∧
    ∀ k, k ≠ key → (GetRequestStatus v tExp tInit key s).2.rsMap k = s.rsMap k := by
  have hres : GetRequestStatus v tExp tInit key s =
      ((v.Fetching, none),
        { s with rsMap := setRs (setRs s.rsMap key ⟨tInit, 0, 0, []⟩) key
                            ⟨tInit, 0, v.Fetching, []⟩ }) := by
    rcases hexp with h | ⟨rs, h, httl, hgt⟩
    · exact GetRequestStatus_absent v tExp tInit key s h
    · have hx : isExpired tExp rs = true := by simp [isExpired, httl, hgt]
      simp [GetRequestStatus, h, hx, initRequestStatus]
  rw [hres]
  refine ⟨rfl, setRs_same _ _ _, rfl, ?_⟩
  intro k hk
  simp [setRs, hk]

/-- C5 at a concrete input: an entry made Cacheable with TTL 1 at time 100 and
read at time 102 (the scenario of `TestRequestStatus/expire`). -/
theorem expiry_driven_refetch_witness :
    (GetRequestStatus sampleVars 102 103 [1]
        ⟨setRs Table.empty.rsMap [1] ⟨100, 1, 4, []⟩, []⟩).1 = (sampleVars.Fetching, none) ∧
    (GetRequestStatus sampleVars 102 103 [1]
        ⟨setRs Table.empty.rsMap [1] ⟨100, 1, 4, []⟩, []⟩).2.rsMap [1]
      = some ⟨103, 0, sampleVars.Fetching, []⟩ ∧
    (GetRequestStatus sampleVars 102 103 [1]
        ⟨setRs Table.empty.rsMap [1] ⟨100, 1, 4, []⟩, []⟩).2.chans = [] ∧
    ∀ k, k ≠ [1] → (GetRequestStatus sampleVars 102 103 [1]
        ⟨setRs Table.empty.rsMap [1] ⟨100, 1, 4, []⟩, []⟩).2.rsMap k
      = setRs Table.empty.rsMap [1] ⟨100, 1, 4, []⟩ k :=
  expiry_driven_refetch sampleVars 102 103 [1] ⟨setRs Table.empty.rsMap [1] ⟨100, 1, 4, []⟩, []⟩
    (Or.inr ⟨⟨100, 1, 4, []⟩, by decide, by decide, by decide⟩)

/-! ## HTTPCache: the claims -/

/-- C6 (single flight in `HTTPCache` across expiry), evaluated on the code:
on an `HTTPCache` whose `expiredAt` (100) is non-zero and in the past, two
consecutive `get()` calls at times 200 and 201, with no `HitForPass` or
`Cachable` in between, both return `StatusFetching` with a nil `done` channel:
`get` resets `status` on expiry but leaves `expiredAt`, so every later call
sees the entry expired again and becomes a fetcher too. -/
theorem get_two_fetchers_after_expiry :
    HTTPCache.getSeq [200, 201] expiredHTTPCache
      = [(StatusFetching, none), (StatusFetching, none)] ∧
    ((HTTPCache.getSeq [200, 201] expiredHTTPCache).filter isFetcher).length = 2 := by
  constructor <;> decide

/-! ## Record codec: lemmas -/

theorem leBytes_length (n x : Nat) : (leBytes n x).length = n := by
  induction n generalizing x with
  | zero => rfl
  | succ n ih => simp [leBytes, ih]

theorem leValue_leBytes (n x : Nat) : leValue n (leBytes n x) = x % 256 ^ n := by
  induction n generalizing x with
  | zero => simp [leValue, Nat.mod_one]
  | succ n ih =>
    simp only [leBytes, leValue, List.headD_cons, List.tail_cons, ih, Nat.mod_mod]
    rw [pow_succ', Nat.mod_mul]

theorem leValue_lt (n : Nat) (b : Bytes) : leValue n b < 256 ^ n := by
  induction n generalizing b with
  | zero => simp [leValue]
  | succ n ih =>
    have h1 := ih b.tail
    have h2 : b.headD 0 % 256 < 256 := Nat.mod_lt _ (by norm_num)
    simp only [leValue, pow_succ]
    omega

/-- The little-endian instance satisfies the assumption on `util`. -/
theorem leUtil_inverse : leUtil.Inverse where
  len32 := fun x _ => leBytes_length 4 x
  len16 := fun x _ => leBytes_length 2 x
  inv32 := fun x hx => by
    show leValue 4 (leBytes 4 x) = x
    rw [leValue_leBytes]; exact Nat.mod_eq_of_lt (by simpa using hx)
  inv16 := fun x hx => by
    show leValue 2 (leBytes 2 x) = x
    rw [leValue_leBytes]; exact Nat.mod_eq_of_lt (by simpa using hx)
  rng32 := fun b => by simpa using leValue_lt 4 b
  rng16 := fun b => by simpa using leValue_lt 2 b

/-- Slicing out the middle part of a concatenation. -/
theorem sliceRange_mid (pre mid post : Bytes) (lo hi : Nat) (hlo : lo = pre.length)
    (hhi : hi = lo + mid.length) : sliceRange (pre ++ (mid ++ post)) lo hi = .ok mid := by
  subst hlo hhi
  have h1 : pre.length + mid.length ≤ (pre ++ (mid ++ post)).length := by
    simp only [List.length_append]; omega
  have h2 : ((pre ++ (mid ++ post)).take (pre.length + mid.length)).drop pre.length = mid := by
    rw [← List.append_assoc, List.take_left' (List.length_append pre mid), List.drop_left' rfl]
  simp [sliceRange, h1, h2]

/-- Slicing off the tail of a concatenation. -/
theorem sliceFrom_append (pre post : Bytes) (lo : Nat) (hlo : lo = pre.length) :
    sliceFrom (pre ++ post) lo = .ok post := by
  subst hlo
  simp [sliceFrom]

theorem sliceRange_panic_of_lt (d : Bytes) (lo hi : Nat) (h : hi < lo) :
    sliceRange d lo hi = .error .panic := by
  have : ¬ lo ≤ hi := by omega
  simp [sliceRange, this]

theorem sliceRange_panic_of_gt (d : Bytes) (lo hi : Nat) (h : d.length < hi) :
    sliceRange d lo hi = .error .panic := by
  have : ¬ hi ≤ d.length := by omega
  simp [sliceRange, this]

/-- The fixed-width slices of a byte string laid out as the five fixed
fields followed by the rest. -/
theorem slices_of_layout (a b c d e rest : Bytes) (ha : a.length = 4) (hb : b.length = 2)
    (hc : c.length = 2) (hd : d.length = 4) (he : e.length = 2) :
    sliceRange (a ++ (b ++ (c ++ (d ++ (e ++ rest))))) headerLengthIndex headerIndex = .ok e ∧
    sliceRange (a ++ (b ++ (c ++ (d ++ (e ++ rest))))) createIndex statusCodeIndex = .ok a ∧
    sliceRange (a ++ (b ++ (c ++ (d ++ (e ++ rest))))) statusCodeIndex compressIndex = .ok b ∧
    sliceRange (a ++ (b ++ (c ++ (d ++ (e ++ rest))))) compressIndex ttlIndex = .ok c ∧
    sliceRange (a ++ (b ++ (c ++ (d ++ (e ++ rest))))) ttlIndex headerLengthIndex = .ok d := by
  refine ⟨?_, ?_, ?_, ?_, ?_⟩
  · have h := sliceRange_mid (a ++ (b ++ (c ++ d))) e rest headerLengthIndex headerIndex
      (by simp [headerLengthIndex, ha, hb, hc, hd]) (by simp [headerLengthIndex, headerIndex, he])
    simpa [List.append_assoc] using h
  · have h := sliceRange_mid [] a (b ++ (c ++ (d ++ (e ++ rest)))) createIndex statusCodeIndex
      (by simp [createIndex]) (by simp [createIndex, statusCodeIndex, ha])
    simpa using h
  · exact sliceRange_mid a b (c ++ (d ++ (e ++ rest))) statusCodeIndex compressIndex
      (by simp [statusCodeIndex, ha]) (by simp [statusCodeIndex, compressIndex, hb])
  · have h := sliceRange_mid (a ++ b) c (d ++ (e ++ rest)) compressIndex ttlIndex
      (by simp [compressIndex, ha, hb]) (by simp [compressIndex, ttlIndex, hc])
    simpa [List.append_assoc] using h
  · have h := sliceRange_mid (a ++ (b ++ c)) d (e ++ rest) ttlIndex headerLengthIndex
      (by simp [ttlIndex, ha, hb, hc]) (by simp [ttlIndex, headerLengthIndex, hd])
    simpa [List.append_assoc] using h

/-- Parsing a laid-out byte string whose header-length field decodes to the
length of the header, when `headerIndex + headerLength` does not wrap. -/
theorem parseResponse_layout (u : Util) (a b c d e H B : Bytes) (ha : a.length = 4)
    (hb : b.length = 2) (hc : c.length = 2) (hd : d.length = 4) (he : e.length = 2)
    (hlen : u.ConvertBytesToUint16 e = H.length) (hfit : headerIndex + H.length < 2 ^ 16) :
    parseResponse u (a ++ (b ++ (c ++ (d ++ (e ++ (H ++ B)))))) =
      .ok { CreatedAt := u.ConvertBytesToUint32 a
            StatusCode := u.ConvertBytesToUint16 b
            Compress := u.ConvertBytesToUint16 c
            TTL := u.ConvertBytesToUint32 d
            Header := H
            Body := B } := by
  obtain ⟨h1, h2, h3, h4, h5⟩ := slices_of_layout a b c d e (H ++ B) ha hb hc hd he
  have hmod : (headerIndex + H.length) % 2 ^ 16 = headerIndex + H.length := Nat.mod_eq_of_lt hfit
  have h6 : sliceRange (a ++ (b ++ (c ++ (d ++ (e ++ (H ++ B)))))) headerIndex
      (headerIndex + H.length) = .ok H := by
    have h := sliceRange_mid (a ++ (b ++ (c ++ (d ++ e)))) H B headerIndex
      (headerIndex + H.length) (by simp [headerIndex, ha, hb, hc, hd, he]) rfl
    simpa [List.append_assoc] using h
  have h7 : sliceFrom (a ++ (b ++ (c ++ (d ++ (e ++ (H ++ B)))))) (headerIndex + H.length)
      = .ok B := by
    have h := sliceFrom_append (a ++ (b ++ (c ++ (d ++ (e ++ H))))) B (headerIndex + H.length)
      (by simp [headerIndex, ha, hb, hc, hd, he]; omega)
    simpa [List.append_assoc] using h
  simp only [parseResponse, h1, h2, h3, h4, h5, hlen, hmod, h6, h7, bind, Except.bind, pure,
    Except.pure]

/-- Parsing a laid-out byte string when `headerIndex + headerLength` wraps
in `uint16`: the slice expression `data[headerIndex : headerIndex+headerLength]`
has its upper bound below its lower bound and panics. -/
theorem parseResponse_wrap (u : Util) (a b c d e rest : Bytes) (ha : a.length = 4)
    (hb : b.length = 2) (hc : c.length = 2) (hd : d.length = 4) (he : e.length = 2)
    (hrng : u.ConvertBytesToUint16 e < 2 ^ 16)
    (hwrap : 2 ^ 16 ≤ headerIndex + u.ConvertBytesToUint16 e) :
    parseResponse u (a ++ (b ++ (c ++ (d ++ (e ++ rest))))) = .error .panic := by
  obtain ⟨h1, h2, h3, h4, h5⟩ := slices_of_layout a b c d e rest ha hb hc hd he
  have hlt : (headerIndex + u.ConvertBytesToUint16 e) % 2 ^ 16 < headerIndex := by
    simp only [headerIndex] at hwrap ⊢
    omega
  have h6 := sliceRange_panic_of_lt (a ++ (b ++ (c ++ (d ++ (e ++ rest))))) headerIndex _ hlt
  simp only [parseResponse, h1, h2, h3, h4, h5, h6, bind, Except.bind]

/-- The layout of the record `SaveResponseData` builds. -/
theorem recordBytes_parts (u : Util) (hu : u.Inverse) (now : Nat) (r : ResponseData)
    (hw : r.WellTyped) (hnow : storedCreatedAt now r < 2 ^ 32) :
    (u.ConvertUint32ToBytes (storedCreatedAt now r)).length = 4 ∧
    (u.ConvertUint16ToBytes r.StatusCode).length = 2 ∧
    (u.ConvertUint16ToBytes r.Compress).length = 2 ∧
    (u.ConvertUint32ToBytes r.TTL).length = 4 ∧
    (u.ConvertUint16ToBytes (r.Header.length % 2 ^ 16)).length = 2 :=
  ⟨hu.len32 _ hnow, hu.len16 _ hw.2.1, hu.len16 _ hw.2.2.1, hu.len32 _ hw.2.2.2,
    hu.len16 _ (Nat.mod_lt _ (by norm_num))⟩

/-- Round trip of the codec for headers of at most 65521 bytes: parsing the
bytes built for `r` gives `r` back, with `CreatedAt` the stored value. -/
theorem parseResponse_recordBytes (u : Util) (hu : u.Inverse) (now : Nat) (r : ResponseData)
    (hw : r.WellTyped) (hnow : storedCreatedAt now r < 2 ^ 32)
    (hfit : headerIndex + r.Header.length < 2 ^ 16) :
    parseResponse u (recordBytes u now r) =
      .ok { r with CreatedAt := storedCreatedAt now r } := by
  obtain ⟨ha, hb, hc, hd, he⟩ := recordBytes_parts u hu now r hw hnow
  have hL : r.Header.length % 2 ^ 16 = r.Header.length := Nat.mod_eq_of_lt (by omega)
  have hlen : u.ConvertBytesToUint16 (u.ConvertUint16ToBytes (r.Header.length % 2 ^ 16))
      = r.Header.length := by
    rw [hu.inv16 _ (Nat.mod_lt _ (by norm_num)), hL]
  rw [recordBytes, parseResponse_layout u _ _ _ _ _ r.Header r.Body ha hb hc hd he hlen hfit,
    hu.inv32 _ hnow, hu.inv16 _ hw.2.1, hu.inv16 _ hw.2.2.1, hu.inv32 _ hw.2.2.2]

/-- For a header of 65522 to 65535 bytes, parsing the bytes built for `r`
panics. -/
theorem parseResponse_recordBytes_wrap (u : Util) (hu : u.Inverse) (now : Nat)
    (r : ResponseData) (hw : r.WellTyped) (hnow : storedCreatedAt now r < 2 ^ 32)
    (hlo : 2 ^ 16 ≤ headerIndex + r.Header.length) (hhi : r.Header.length < 2 ^ 16) :
    parseResponse u (recordBytes u now r) = .error .panic := by
  obtain ⟨ha, hb, hc, hd, he⟩ := recordBytes_parts u hu now r hw hnow
  have hlen : u.ConvertBytesToUint16 (u.ConvertUint16ToBytes (r.Header.length % 2 ^ 16))
      = r.Header.length := by
    rw [hu.inv16 _ (Nat.mod_lt _ (by norm_num)), Nat.mod_eq_of_lt hhi]
  exact parseResponse_wrap u _ _ _ _ _ _ ha hb hc hd he (by rw [hlen]; exact hhi)
    (by rw [hlen]; exact hlo)

/-! ## Store: lemmas -/

theorem Bucket.get_put (b : Bucket) (key val : Bytes) :
    Bucket.get (Bucket.put b key val) key = some val := by
  simp [Bucket.get, Bucket.put, List.lookup]

theorem DB.set_same (db : DB) (bucket : Bytes) (b : Bucket) : DB.set db bucket b bucket = some b := by
  simp [DB.set]

theorem DB.set_other (db : DB) (bucket n : Bytes) (b : Bucket) (h : n ≠ bucket) :
    DB.set db bucket b n = db n := by
  simp [DB.set, h]

/-- On an opened database holding the bucket, when `Put` accepts the key and
the bytes built, `SaveResponseData` returns nil and the bytes it built are
what `Get` then reads under the key. -/
theorem SaveResponseData_stores (u : Util) (now : Nat) (db : DB) (bucket key : Bytes)
    (b : Bucket) (r : ResponseData) (hb : db bucket = some b)
    (hput : putError key (recordBytes u now r) = none) :
    SaveResponseData u now (some db) bucket key r
      = .ok (DB.set db bucket (Bucket.put b key (recordBytes u now r))) ∧
    Get (some (DB.set db bucket (Bucket.put b key (recordBytes u now r)))) bucket key
      = .ok (some (recordBytes u now r)) := by
  constructor
  · simp [SaveResponseData, Save, hb, hput]
  · simp [Get, DB.set_same, Bucket.get_put]

theorem recordBytes_length (u : Util) (hu : u.Inverse) (now : Nat) (r : ResponseData)
    (hw : r.WellTyped) (hnow : storedCreatedAt now r < 2 ^ 32) :
    (recordBytes u now r).length = 14 + r.Header.length + r.Body.length := by
  obtain ⟨ha, hb, hc, hd, he⟩ := recordBytes_parts u hu now r hw hnow
  simp only [recordBytes, List.length_append, ha, hb, hc, hd, he]
  omega

/-- `Put` accepts a non-empty key of at most `MaxKeySize` bytes with a value
of at most `MaxValueSize` bytes. -/
theorem putError_none (key val : Bytes) (h1 : key ≠ []) (h2 : key.length ≤ MaxKeySize)
    (h3 : val.length ≤ MaxValueSize) : putError key val = none := by
  have h0 : key.length ≠ 0 := fun h => h1 (List.length_eq_zero.mp h)
  have h2' : ¬ key.length > MaxKeySize := by omega
  have h3' : ¬ val.length > MaxValueSize := by omega
  simp [putError, h0, h2', h3']

/-- `Put` accepts the bytes built for a record under a valid key when
`14 + len(Header) + len(Body)` is at most `MaxValueSize`. -/
theorem putError_recordBytes (u : Util) (hu : u.Inverse) (now : Nat) (r : ResponseData)
    (hw : r.WellTyped) (hnow : storedCreatedAt now r < 2 ^ 32) (key : Bytes) (h1 : key ≠ [])
    (h2 : key.length ≤ MaxKeySize)
    (h3 : 14 + r.Header.length + r.Body.length ≤ MaxValueSize) :
    putError key (recordBytes u now r) = none :=
  putError_none key _ h1 h2 (by rw [recordBytes_length u hu now r hw hnow]; exact h3)

theorem longHeaderRecord_length : longHeaderRecord.Header.length = 65522 := by
  show (List.replicate 65522 0).length = 65522
  rw [List.length_replicate]

theorem oversizedHeaderRecord_length : oversizedHeaderRecord.Header.length = 65536 := by
  show (List.replicate 65536 0).length = 65536
  rw [List.length_replicate]

theorem oversizedZeroCreatedRecord_length :
    oversizedZeroCreatedRecord.Header.length = 65536 := by
  show (List.replicate 65536 0).length = 65536
  rw [List.length_replicate]

theorem longZeroCreatedRecord_length : longZeroCreatedRecord.Header.length = 65522 := by
  show (List.replicate 65522 0).length = 65522
  rw [List.length_replicate]

/-- `Put` accepts the key `[107]` with the bytes built for each of the sample
records. -/
theorem putError_samples :
    putError [107] (recordBytes leUtil 5 sampleRecord) = none ∧
    putError [107] (recordBytes leUtil 5 zeroCreatedRecord) = none ∧
    putError [107] (recordBytes leUtil 5 longHeaderRecord) = none ∧
    putError [107] (recordBytes leUtil 5 oversizedHeaderRecord) = none ∧
    putError [107] (recordBytes leUtil 5 oversizedZeroCreatedRecord) = none ∧
    putError [107] (recordBytes leUtil 5 longZeroCreatedRecord) = none := by
  refine ⟨?_, ?_, ?_, ?_, ?_, ?_⟩
  · exact putError_recordBytes leUtil leUtil_inverse 5 _ (by decide) (by decide) [107]
      (by decide) (by decide) (by decide)
  · exact putError_recordBytes leUtil leUtil_inverse 5 _ (by decide) (by decide) [107]
      (by decide) (by decide) (by decide)
  · exact putError_recordBytes leUtil leUtil_inverse 5 _ (by decide) (by decide) [107]
      (by decide) (by decide) (by
        rw [longHeaderRecord_length]
        show 14 + 65522 + ([1, 2] : Bytes).length ≤ MaxValueSize
        decide)
  · exact putError_recordBytes leUtil leUtil_inverse 5 _ (by decide) (by decide) [107]
      (by decide) (by decide) (by
        rw [oversizedHeaderRecord_length]
        show 14 + 65536 + ([1, 2] : Bytes).length ≤ MaxValueSize
        decide)
  · exact putError_recordBytes leUtil leUtil_inverse 5 _ (by decide) (by decide) [107]
      (by decide) (by decide) (by
        rw [oversizedZeroCreatedRecord_length]
        show 14 + 65536 + ([1, 2] : Bytes).length ≤ MaxValueSize
        decide)
  · exact putError_recordBytes leUtil leUtil_inverse 5 _ (by decide) (by decide) [107]
      (by decide) (by decide) (by
        rw [longZeroCreatedRecord_length]
        show 14 + 65522 + ([1, 2] : Bytes).length ≤ MaxValueSize
        decide)

/-- What `GetResponse` does with a non-empty stored value. -/
theorem GetResponse_stored (u : Util) (db : DB) (bucket key : Bytes) (b : Bucket) (d : Bytes)
    (hb : db bucket = some b) (hk : Bucket.get b key = some d) (hne : d.length ≠ 0) :
    GetResponse u (some db) bucket key =
      match parseResponse u d with
      | .error f => .error f
      | .ok r => .ok (some r) := by
  simp [GetResponse, Get, hb, hk, hne]

/-- Round trip through the store for headers of at most 65521 bytes, when
`Put` accepts the key and the bytes built: what `GetResponse` parses from the
bytes `SaveResponseData` stored for `r` is `r`, with `CreatedAt` the stored
value. -/
theorem roundtrip_short_header (u : Util) (hu : u.Inverse) (now : Nat) (db : DB)
    (bucket key : Bytes) (b : Bucket) (r : ResponseData) (hb : db bucket = some b)
    (hput : putError key (recordBytes u now r) = none)
    (hw : r.WellTyped) (hnow : storedCreatedAt now r < 2 ^ 32)
    (hfit : r.Header.length ≤ 65521) :
    ∃ db1, SaveResponseData u now (some db) bucket key r = .ok db1 ∧
      GetResponse u (some db1) bucket key
        = .ok (some { r with CreatedAt := storedCreatedAt now r }) := by
  obtain ⟨hsave, _⟩ := SaveResponseData_stores u now db bucket key b r hb hput
  refine ⟨_, hsave, ?_⟩
  have hlen := recordBytes_length u hu now r hw hnow
  rw [GetResponse_stored u _ bucket key _ (recordBytes u now r) (DB.set_same _ _ _)
    (Bucket.get_put _ _ _) (by omega),
    parseResponse_recordBytes u hu now r hw hnow (by simp only [headerIndex]; omega)]

/-! ## Record codec and store: the claims -/

/-- C3 (record round trip), evaluated on the code: for a well-typed record
with `CreatedAt != 0` whose header is 65522 to 65535 bytes long (so
`len(Header) < 65536`), mutually inverse fixed-width conversions and a key
and record that `Put` accepts,
`SaveResponseData` stores the record, but `GetResponse` on the stored bytes
does not give the record back: `headerIndex+headerLength` is computed in
`uint16`, wraps to a value below `headerIndex`, and the slice expression
`data[headerIndex : headerIndex+headerLength]` panics. -/
theorem roundtrip_panics_long_header (u : Util) (hu : u.Inverse) (now : Nat) (db : DB)
    (bucket key : Bytes) (b : Bucket) (r : ResponseData) (hb : db bucket = some b)
    (hput : putError key (recordBytes u now r) = none)
    (hw : r.WellTyped) (hc : r.CreatedAt ≠ 0) (hlo : 65522 ≤ r.Header.length)
    (hhi : r.Header.length < 65536) :
    ∃ db1, SaveResponseData u now (some db) bucket key r = .ok db1 ∧
      GetResponse u (some db1) bucket key = .error .panic := by
  have hnow : storedCreatedAt now r < 2 ^ 32 := by
    simp only [storedCreatedAt, hc, if_false]; exact hw.1
  obtain ⟨hsave, _⟩ := SaveResponseData_stores u now db bucket key b r hb hput
  refine ⟨_, hsave, ?_⟩
  have hlen := recordBytes_length u hu now r hw hnow
  rw [GetResponse_stored u _ bucket key _ (recordBytes u now r) (DB.set_same _ _ _)
    (Bucket.get_put _ _ _) (by omega),
    parseResponse_recordBytes_wrap u hu now r hw hnow (by simp only [headerIndex]; omega)
      (by omega)]

/-- C3 at a concrete input: a record with a header of 65522 bytes. -/
theorem roundtrip_panics_long_header_witness :
    ∃ db1, SaveResponseData leUtil 5 (some sampleDB) [98] [107] longHeaderRecord = .ok db1 ∧
      GetResponse leUtil (some db1) [98] [107] = .error .panic :=
  roundtrip_panics_long_header leUtil leUtil_inverse 5 sampleDB [98] [107] [] longHeaderRecord
    (by decide) putError_samples.2.2.1 (by decide) (by decide)
    (by show 65522 ≤ (List.replicate 65522 0).length; rw [List.length_replicate])
    (by show (List.replicate 65522 0).length < 65536; rw [List.length_replicate]; norm_num)

/-- C7 (decoding rejects corrupt records) fails on the code: for the stored
three-byte value `[1, 2, 3]`, `GetResponse` returns neither a record nor an
error value; the slice expression `data[headerLengthIndex:headerIndex]` is out
of range and the call panics. -/
theorem GetResponse_short_record_panics :
    GetResponse leUtil (some corruptDB) [98] [107] = .error .panic ∧
    ¬ ∃ e, GetResponse leUtil (some corruptDB) [98] [107] = .error (.err e) := by
  have h : GetResponse leUtil (some corruptDB) [98] [107] = .error .panic := by decide
  refine ⟨h, ?_⟩
  rintro ⟨e, he⟩
  rw [h] at he
  cases he

/-- C7 as amended: `GetResponse` does not validate the stored bytes. For
every non-empty stored value `d` with `len(d) < 14`, or with `len(d) >= 14`
and `14 + headerLength(d) > len(d)`, it returns neither a record nor an error
value: a slice expression is out of range and the call panics. (The
conversion's result is a `uint16`.) -/
theorem GetResponse_corrupt_panics (u : Util) (hrng : ∀ x, u.ConvertBytesToUint16 x < 2 ^ 16)
    (db : DB) (bucket key : Bytes) (b : Bucket) (d : Bytes) (hb : db bucket = some b)
    (hk : Bucket.get b key = some d) (hne : d ≠ [])
    (hbad : d.length < 14 ∨ (14 ≤ d.length ∧ d.length < 14 + headerLengthOf u d)) :
    GetResponse u (some db) bucket key = .error .panic := by
  have hlen : d.length ≠ 0 := by
    intro h0; exact hne (List.length_eq_zero.mp h0)
  rw [GetResponse_stored u db bucket key b d hb hk hlen]
  rcases hbad with hshort | ⟨hge, hover⟩
  · have h1 := sliceRange_panic_of_gt d headerLengthIndex headerIndex
      (by simp only [headerIndex]; omega)
    simp only [parseResponse, h1, bind, Except.bind]
  · have hok : ∀ lo hi, lo ≤ hi → hi ≤ 14 → sliceRange d lo hi = .ok ((d.take hi).drop lo) := by
      intro lo hi h1 h2
      have : lo ≤ hi ∧ hi ≤ d.length := ⟨h1, by omega⟩
      simp [sliceRange, this]
    have hr := hrng ((d.take headerIndex).drop headerLengthIndex)
    have h6 : sliceRange d headerIndex ((headerIndex + headerLengthOf u d) % 2 ^ 16)
        = .error .panic := by
      simp only [headerLengthOf, headerIndex] at hover hr ⊢
      rcases Nat.lt_or_ge (14 + u.ConvertBytesToUint16 ((d.take 14).drop headerLengthIndex))
        (2 ^ 16) with hsmall | hwrap
      · rw [Nat.mod_eq_of_lt hsmall]
        exact sliceRange_panic_of_gt d _ _ hover
      · exact sliceRange_panic_of_lt d _ _ (by omega)
    simp only [headerLengthOf] at h6
    simp only [parseResponse, hok headerLengthIndex headerIndex (by decide) (by decide),
      hok createIndex statusCodeIndex (by decide) (by decide),
      hok statusCodeIndex compressIndex (by decide) (by decide),
      hok compressIndex ttlIndex (by decide) (by decide),
      hok ttlIndex headerLengthIndex (by decide) (by decide), h6, bind, Except.bind]

/-- C7 as amended, at a concrete input: the stored value `[1, 2, 3]`. -/
theorem GetResponse_corrupt_panics_witness :
    GetResponse leUtil (some corruptDB) [98] [107] = .error .panic :=
  GetResponse_corrupt_panics leUtil leUtil_inverse.rng16 corruptDB [98] [107]
    [([107], [1, 2, 3])] [1, 2, 3] (by decide) (by decide) (by decide) (Or.inl (by decide))

/-- C8 (encoding rejects oversized headers) fails on the code: for a record
whose header is 65536 bytes long, saved under the key `[107]`,
`SaveResponseData` returns nil, not an error, and the bytes it built are
stored under the key. -/
theorem SaveResponseData_accepts_oversized_header :
    oversizedHeaderRecord.Header.length = 65536 ∧
    ∃ db1, SaveResponseData leUtil 5 (some sampleDB) [98] [107] oversizedHeaderRecord = .ok db1 ∧
      Get (some db1) [98] [107] = .ok (some (recordBytes leUtil 5 oversizedHeaderRecord)) :=
  ⟨oversizedHeaderRecord_length,
    _, SaveResponseData_stores leUtil 5 sampleDB [98] [107] [] oversizedHeaderRecord (by decide)
      putError_samples.2.2.2.1⟩

/-- The header-length field of the bytes built for a record whose header is
at most 65535 bytes long is the length of the header. -/
theorem headerLengthOf_recordBytes (u : Util) (hu : u.Inverse) (now : Nat) (r : ResponseData)
    (hw : r.WellTyped) (hnow : storedCreatedAt now r < 2 ^ 32)
    (hfit : r.Header.length ≤ 65535) :
    headerLengthOf u (recordBytes u now r) = r.Header.length := by
  obtain ⟨ha, hb1, hc, hd, he⟩ := recordBytes_parts u hu now r hw hnow
  have hs := (slices_of_layout _ _ _ _ _ (r.Header ++ r.Body) ha hb1 hc hd he).1
  have hlen := recordBytes_length u hu now r hw hnow
  have hle : headerLengthIndex ≤ headerIndex ∧ headerIndex ≤ (recordBytes u now r).length := by
    simp only [headerLengthIndex, headerIndex]; omega
  have hs2 : ((recordBytes u now r).take headerIndex).drop headerLengthIndex
      = u.ConvertUint16ToBytes (r.Header.length % 2 ^ 16) := by
    have h := hs
    rw [← recordBytes] at h
    simp only [sliceRange, hle, and_self, if_true, Except.ok.injEq] at h
    exact h
  rw [headerLengthOf, hs2, hu.inv16 _ (Nat.mod_lt _ (by norm_num)), Nat.mod_eq_of_lt (by omega)]

/-- C8 as amended: `SaveResponseData` has no header-length check. For every
well-typed record with `len(Header) <= 65535` and an opened database holding
the bucket, encoding itself does not fail: the bytes are built with the
header-length field equal to `len(Header)`, and `SaveResponseData` returns
what `Save` returns for them. That is the error of `Put` when `Put` rejects
the key or the bytes (`ErrKeyRequired` for an empty key, `ErrKeyTooLarge`,
`ErrValueTooLarge`), with nothing stored, and nil otherwise, with the bytes
stored under the key. -/
theorem SaveResponseData_encoding_never_fails (u : Util) (hu : u.Inverse) (now : Nat) (db : DB)
    (bucket key : Bytes) (b : Bucket) (r : ResponseData) (hb : db bucket = some b)
    (hw : r.WellTyped) (hnow : storedCreatedAt now r < 2 ^ 32)
    (hfit : r.Header.length ≤ 65535) :
    headerLengthOf u (recordBytes u now r) = r.Header.length ∧
    SaveResponseData u now (some db) bucket key r
      = Save (some db) bucket key (recordBytes u now r) ∧
    (∀ e, putError key (recordBytes u now r) = some e →
      SaveResponseData u now (some db) bucket key r = .error (.err e)) ∧
    (putError key (recordBytes u now r) = none →
      ∃ db1, SaveResponseData u now (some db) bucket key r = .ok db1 ∧
        Get (some db1) bucket key = .ok (some (recordBytes u now r))) := by
  refine ⟨headerLengthOf_recordBytes u hu now r hw hnow hfit, rfl, ?_, ?_⟩
  · intro e he
    simp [SaveResponseData, Save, hb, he]
  · intro hput
    exact ⟨_, SaveResponseData_stores u now db bucket key b r hb hput⟩

/-- C8 as amended, at a concrete input: `sampleRecord` under the key `[107]`,
which `Put` accepts, and under the empty key, which it rejects. -/
theorem SaveResponseData_encoding_never_fails_witness :
    (putError [107] (recordBytes leUtil 5 sampleRecord) = none ∧
      headerLengthOf leUtil (recordBytes leUtil 5 sampleRecord) = sampleRecord.Header.length ∧
      ∃ db1, SaveResponseData leUtil 5 (some sampleDB) [98] [107] sampleRecord = .ok db1 ∧
        Get (some db1) [98] [107] = .ok (some (recordBytes leUtil 5 sampleRecord))) ∧
    (putError [] (recordBytes leUtil 5 sampleRecord) = some .ErrKeyRequired ∧
      SaveResponseData leUtil 5 (some sampleDB) [98] [] sampleRecord
        = .error (.err .ErrKeyRequired)) :=
  ⟨⟨putError_samples.1,
      (SaveResponseData_encoding_never_fails leUtil leUtil_inverse 5 sampleDB [98] [107] []
        sampleRecord (by decide) (by decide) (by decide) (by decide)).1,
      (SaveResponseData_encoding_never_fails leUtil leUtil_inverse 5 sampleDB [98] [107] []
        sampleRecord (by decide) (by decide) (by decide) (by decide)).2.2.2
        putError_samples.1⟩,
    ⟨rfl,
      (SaveResponseData_encoding_never_fails leUtil leUtil_inverse 5 sampleDB [98] [] []
        sampleRecord (by decide) (by decide) (by decide) (by decide)).2.2.1
        .ErrKeyRequired rfl⟩⟩

/-! ## Sweep: lemmas and the claim -/

theorem storedCreatedAt_lt (now : Nat) (r : ResponseData) (hw : r.WellTyped)
    (hnow : now < 2 ^ 32) : storedCreatedAt now r < 2 ^ 32 := by
  unfold storedCreatedAt
  split
  · exact hnow
  · exact hw.1

/-- One step of the sweep on a value written by `SaveResponseData` whose
expiry time lies before `now`: the key is deleted. -/
theorem sweepLoop_cons_expired (u : Util) (hu : u.Inverse) (now : Nat) (hnow : now < 2 ^ 32)
    (k v : Bytes) (rest : List (Bytes × Bytes)) (b : Bucket) (c ttl : Nat)
    (hv : WrittenBySave u v c ttl) (hexp : c + ttl < now) :
    sweepLoop u now ((k, v) :: rest) b = sweepLoop u now rest (Bucket.delete b k) := by
  obtain ⟨r, t, hw, ht, rfl, rfl, rfl⟩ := hv
  have hst := storedCreatedAt_lt t r hw ht
  obtain ⟨ha, hb, hc, hd, he⟩ := recordBytes_parts u hu t r hw hst
  obtain ⟨_, h2, _, _, h5⟩ := slices_of_layout _ _ _ _ _ (r.Header ++ r.Body) ha hb hc hd he
  rw [← recordBytes] at h2 h5
  have hsum : addU32 (storedCreatedAt t r) r.TTL = storedCreatedAt t r + r.TTL := by
    unfold addU32; exact Nat.mod_eq_of_lt (by omega)
  simp only [sweepLoop, h2, h5, hu.inv32 _ hst, hu.inv32 _ hw.2.2.2, hsum]
  simp [hexp]

/-- Sweeping a list of expired written values deletes each of their keys. -/
theorem sweepLoop_all_expired (u : Util) (hu : u.Inverse) (now : Nat) (hnow : now < 2 ^ 32)
    (l : List (Bytes × Bytes)) :
    ∀ b : Bucket, (∀ kv ∈ l, ∃ c ttl, WrittenBySave u kv.2 c ttl ∧ c + ttl < now) →
      sweepLoop u now l b = .ok (b.filter (fun kv => decide (kv.1 ∉ l.map Prod.fst))) := by
  induction l with
  | nil => intro b _; simp [sweepLoop]
  | cons kv rest ih =>
    intro b hall
    obtain ⟨k, v⟩ := kv
    obtain ⟨c, ttl, hv, hexp⟩ := hall (k, v) (List.mem_cons_self _ _)
    rw [sweepLoop_cons_expired u hu now hnow k v rest b c ttl hv hexp,
      ih _ (fun kv hkv => hall kv (List.mem_cons_of_mem _ hkv))]
    simp only [Bucket.delete, List.filter_filter, List.map_cons, List.mem_cons, not_or]
    congr 2
    funext kv
    by_cases h1 : kv.1 = k <;> by_cases h2 : kv.1 ∈ rest.map Prod.fst <;> simp [h1, h2]

/-- C9 (sweep empties a fully expired bucket). For an opened database whose
bucket holds only values written by `SaveResponseData`, each with
`createdAt + ttl < now`, `ClearExpiredResponseData(bucket)` run at clock time
`now` returns nil and leaves the bucket without entries; other buckets are
untouched. -/
theorem sweep_empties_expired_bucket (u : Util) (hu : u.Inverse) (now : Nat)
    (hnow : now < 2 ^ 32) (db : DB) (bucket : Bytes) (b : Bucket) (hb : db bucket = some b)
    (hall : ∀ kv ∈ b, ∃ c ttl, WrittenBySave u kv.2 c ttl ∧ c + ttl < now) :
    ∃ db1, ClearExpiredResponseData u now (some db) bucket = .ok db1 ∧
      db1 bucket = some [] ∧ ∀ n, n ≠ bucket → db1 n = db n := by
  have hsweep := sweepLoop_all_expired u hu now hnow b b hall
  have hempty : b.filter (fun kv => decide (kv.1 ∉ b.map Prod.fst)) = [] := by
    rw [List.filter_eq_nil_iff]
    intro kv hkv
    have : kv.1 ∈ b.map Prod.fst := List.mem_map_of_mem Prod.fst hkv
    simp [this]
  rw [hempty] at hsweep
  refine ⟨DB.set db bucket [], ?_, DB.set_same _ _ _, fun n hn => DB.set_other _ _ _ _ hn⟩
  simp [ClearExpiredResponseData, hb, hsweep]

/-- C9 at a concrete input: a bucket of two expired records swept at time
100. -/
theorem sweep_empties_expired_bucket_witness :
    ∃ db1, ClearExpiredResponseData leUtil 100 (some (DB.set sampleDB [98] expiredBucket)) [98]
        = .ok db1 ∧
      db1 [98] = some [] ∧
      ∀ n, n ≠ [98] → db1 n = DB.set sampleDB [98] expiredBucket n :=
  sweep_empties_expired_bucket leUtil leUtil_inverse 100 (by norm_num)
    (DB.set sampleDB [98] expiredBucket) [98] expiredBucket (DB.set_same _ _ _) (by
      intro kv hkv
      simp only [expiredBucket, List.mem_cons, List.mem_singleton, List.not_mem_nil,
        or_false] at hkv
      rcases hkv with rfl | rfl
      · exact ⟨10, 5, ⟨oldRecord, 0, by decide, by norm_num, rfl, rfl, rfl⟩, by norm_num⟩
      · exact ⟨20, 1, ⟨autoRecord, 20, by decide, by norm_num, rfl, rfl, rfl⟩, by norm_num⟩)

/-! ## Responder: lemmas and the claim -/

theorem Context.hasHeader_SetHeader (c : Context) (k v ce : String) (hk : k ≠ ce)
    (h : c.hasHeader ce = false) : (c.SetHeader k v).hasHeader ce = false := by
  simp only [Context.hasHeader, Context.SetHeader, List.any_append, List.any_eq_false,
    Bool.or_eq_false_iff, decide_eq_true_eq, List.mem_filter, List.any_cons, List.any_nil,
    Bool.or_false, decide_eq_false_iff_not, and_imp] at h ⊢
  exact ⟨fun kv hkv _ => h kv hkv, hk⟩

theorem copyHeaders_hasHeader (hs : List (String × List String)) (ce : String)
    (hhs : ∀ kv ∈ hs, kv.1 ≠ ce) :
    ∀ c : Context, c.hasHeader ce = false → (copyHeaders hs c).hasHeader ce = false := by
  induction hs with
  | nil => intro c h; exact h
  | cons kv rest ih =>
    intro c h
    have hk : kv.1 ≠ ce := hhs kv (List.mem_cons_self _ _)
    have hinner : ∀ (vs : List String) (c : Context), c.hasHeader ce = false →
        (vs.foldl (fun c v => Context.SetHeader c kv.1 v) c).hasHeader ce = false := by
      intro vs
      induction vs with
      | nil => intro c h; exact h
      | cons v vs ihv =>
        intro c h
        exact ihv _ (Context.hasHeader_SetHeader c kv.1 v ce hk h)
    have := ih (fun kv1 h1 => hhs kv1 (List.mem_cons_of_mem _ h1)) _ (hinner kv.2 c h)
    simpa [copyHeaders] using this

theorem respondHead_hasHeader (df : DF) (now : Int) (hc : CachedResp) (c : Context)
    (hage : df.HeaderAge ≠ df.HeaderContentEncoding)
    (hhs : ∀ kv ∈ hc.Headers, kv.1 ≠ df.HeaderContentEncoding)
    (hc0 : c.hasHeader df.HeaderContentEncoding = false) :
    (respondHead df now hc c).hasHeader df.HeaderContentEncoding = false := by
  have h1 := copyHeaders_hasHeader hc.Headers df.HeaderContentEncoding hhs c hc0
  have h2 : ({ copyHeaders hc.Headers c with StatusCode := hc.StatusCode } : Context).hasHeader
      df.HeaderContentEncoding = false := h1
  unfold respondHead
  simp only
  split
  · exact Context.hasHeader_SetHeader _ _ _ _ hage h2
  · exact h2

/-- C10 (serve-side fallback to raw) fails on the code for a brotli-only
record: requested with `Accept-Encoding: gzip, deflate`, the responder does
not decode the brotli variant; it takes `hc.Body`, which is nil, so the
response body is left nil. -/
theorem responder_brotli_only_not_decoded :
    brOnlyResp.BrBody = some [66, 82] ∧ brOnlyResp.GzipBody = none ∧ brOnlyResp.Body = none ∧
    (NewResponder specDF 4 sampleGunzip 100 none
      (requestContext "gzip, deflate" brOnlyResp)).1 = none ∧
    (NewResponder specDF 4 sampleGunzip 100 none
      (requestContext "gzip, deflate" brOnlyResp)).2.BodyBuffer = none := by
  refine ⟨rfl, rfl, rfl, ?_, ?_⟩ <;> decide

/-- C10 as amended: for every Cacheable cached response that holds a gzip
variant and every `Accept-Encoding` value that names none of the encodings
the record holds (not `gzip`, and not `br` when a brotli variant is held), if
`Gunzip` of the gzip variant succeeds the responder returns nil, sets the
response body to the gunzipped raw bytes and sets no `Content-Encoding`
header: the response headers are those copied from the cached response (and
`Age`), so none has the key `Content-Encoding` unless the cached headers or
the context already carried it. -/
theorem responder_gzip_fallback_to_raw (df : DF) (cacheable : Int)
    (gunzip : Bytes → Except Nat Bytes) (now : Int) (c : Context) (hc : CachedResp)
    (gz raw : Bytes) (hbody : c.BodyBuffer = none) (hslot : c.cacheSlot = .httpCache hc)
    (hst : hc.Status = cacheable) (hgz : hc.GzipBody = some gz)
    (hnogzip : stringsContains c.acceptEncoding df.GZIP = false)
    (hnobr : hc.BrBody = none ∨ stringsContains c.acceptEncoding df.BR = false)
    (hun : gunzip gz = .ok raw) :
    NewResponder df cacheable gunzip now none c
      = (none, { respondHead df now hc c with BodyBuffer := some raw }) ∧
    (df.HeaderAge ≠ df.HeaderContentEncoding →
      (∀ kv ∈ hc.Headers, kv.1 ≠ df.HeaderContentEncoding) →
      c.hasHeader df.HeaderContentEncoding = false →
      (NewResponder df cacheable gunzip now none c).2.hasHeader df.HeaderContentEncoding
        = false) := by
  have hres : NewResponder df cacheable gunzip now none c
      = (none, { respondHead df now hc c with BodyBuffer := some raw }) := by
    have hbr : ¬ (hc.BrBody ≠ none ∧ stringsContains c.acceptEncoding df.BR = true) := by
      rintro ⟨h1, h2⟩
      rcases hnobr with h | h
      · exact h1 h
      · rw [h] at h2; cases h2
    simp [NewResponder, hbody, hslot, hst, hgz, hnogzip, hbr, hun, respondBody]
  refine ⟨hres, ?_⟩
  intro hage hhs hc0
  rw [hres]
  exact respondHead_hasHeader df now hc c hage hhs hc0

/-- C10 as amended, at a concrete input: a gzip-only record requested with
`Accept-Encoding: deflate`. -/
theorem responder_gzip_fallback_to_raw_witness :
    NewResponder specDF 4 sampleGunzip 100 none (requestContext "deflate" gzipOnlyResp)
      = (none, { respondHead specDF 100 gzipOnlyResp (requestContext "deflate" gzipOnlyResp)
                  with BodyBuffer := some [104, 105] }) ∧
    (specDF.HeaderAge ≠ specDF.HeaderContentEncoding →
      (∀ kv ∈ gzipOnlyResp.Headers, kv.1 ≠ specDF.HeaderContentEncoding) →
      (requestContext "deflate" gzipOnlyResp).hasHeader specDF.HeaderContentEncoding = false →
      (NewResponder specDF 4 sampleGunzip 100 none
        (requestContext "deflate" gzipOnlyResp)).2.hasHeader specDF.HeaderContentEncoding
        = false) :=
  responder_gzip_fallback_to_raw specDF 4 sampleGunzip 100 (requestContext "deflate" gzipOnlyResp)
    gzipOnlyResp [31, 104, 105] [104, 105] rfl rfl rfl rfl (by decide) (Or.inl rfl) rfl

/-! ## Status table: frame properties -/

/-- C15 (fresh resolved entries are returned without parking). For a key
whose entry has status `HitForPass` or `Cacheable` and is not expired
(`ttl == 0`, or the `uint32` difference `now - createdAt` is at most `ttl`),
`GetRequestStatus(key)` returns that status with a nil channel and leaves the
whole table as it was: the entry, every other key's entry and the channels.
`HitForPass` and `Cacheable` are constants different from `Fetching`. -/
theorem fresh_resolved_entry_unchanged (v : Vars) (tExp tInit : Nat) (key : Bytes) (s : Table)
    (rs : RequestStatus) (h : s.rsMap key = some rs)
    (hst : rs.status = v.HitForPass ∨ rs.status = v.Cacheable)
    (hHF : v.HitForPass ≠ v.Fetching) (hCF : v.Cacheable ≠ v.Fetching)
    (hfresh : rs.ttl = 0 ∨ subU32 tExp rs.createdAt ≤ rs.ttl) :
    GetRequestStatus v tExp tInit key s = ((rs.status, none), s) := by
  have hne : rs.status ≠ v.Fetching := by
    rcases hst with e | e <;> rw [e] <;> assumption
  have hx : isExpired tExp rs = false := by
    rcases hfresh with h0 | hle
    · exact isExpired_ttl_zero _ _ h0
    · have : ¬ rs.ttl < subU32 tExp rs.createdAt := by omega
      simp [isExpired, this]
  simp [GetRequestStatus, h, hx, hne]

/-- C15 at a concrete input: an entry made `HitForPass` with TTL 300, created
at time 100 and read at time 150. -/
theorem fresh_resolved_entry_unchanged_witness :
    GetRequestStatus sampleVars 150 150 [1] ⟨setRs Table.empty.rsMap [1] ⟨100, 300, 3, []⟩, []⟩
      = (((⟨100, 300, 3, []⟩ : RequestStatus).status, none),
          ⟨setRs Table.empty.rsMap [1] ⟨100, 300, 3, []⟩, []⟩) :=
  fresh_resolved_entry_unchanged sampleVars 150 150 [1]
    ⟨setRs Table.empty.rsMap [1] ⟨100, 300, 3, []⟩, []⟩ ⟨100, 300, 3, []⟩
    (by decide) (Or.inl (by decide)) (by decide) (by decide) (Or.inr (by decide))

/-- C16 (a transition on an absent key is a no-op). For a key without entry,
`HitForPass(key, ttl)` and `Cacheable(key, ttl)` (and the transition with any
status) return and leave the table exactly as it was, and the next
`GetRequestStatus(key)` returns `(Fetching, nil)`. -/
theorem transition_on_absent_key_noop (v : Vars) (key : Bytes) (ttl : Nat) (s : Table)
    (habs : s.rsMap key = none) :
    HitForPass v key ttl s = .ok s ∧ Cacheable v key ttl s = .ok s ∧
    (∀ st, triggerWatingRequstAndSetStatus key st ttl s = .ok s) ∧
    ∀ tExp tInit, (GetRequestStatus v tExp tInit key s).1 = (v.Fetching, none) := by
  refine ⟨?_, ?_, ?_, ?_⟩
  · simp [HitForPass, triggerWatingRequstAndSetStatus, habs]
  · simp [Cacheable, triggerWatingRequstAndSetStatus, habs]
  · intro st; simp [triggerWatingRequstAndSetStatus, habs]
  · intro tExp tInit
    rw [GetRequestStatus_absent v tExp tInit key s habs]

/-- C16 at a concrete input: key `[2]` has no entry in `parkedTable`. -/
theorem transition_on_absent_key_noop_witness :
    HitForPass sampleVars [2] 300 parkedTable = .ok parkedTable ∧
    Cacheable sampleVars [2] 300 parkedTable = .ok parkedTable ∧
    (∀ st, triggerWatingRequstAndSetStatus [2] st 300 parkedTable = .ok parkedTable) ∧
    ∀ tExp tInit, (GetRequestStatus sampleVars tExp tInit [2] parkedTable).1
      = (sampleVars.Fetching, none) :=
  transition_on_absent_key_noop sampleVars [2] 300 parkedTable (by decide)

/-! ## Store before initialisation -/

/-- C20 (store used before initialisation). When the package-level `client`
is nil, for all arguments `InitBucket`, `Save`, `SaveResponseData` and
`ClearExpiredResponseData` return `vars.ErrDbNotInit`, and `Get` and
`GetResponse` return `(nil, vars.ErrDbNotInit)`; no database comes back from
any of them. -/
theorem store_not_initialised (u : Util) (now : Nat) (bucket key buf : Bytes)
    (r : ResponseData) :
    InitBucket none bucket = .error (.err .ErrDbNotInit) ∧
    Save none bucket key buf = .error (.err .ErrDbNotInit) ∧
    SaveResponseData u now none bucket key r = .error (.err .ErrDbNotInit) ∧
    ClearExpiredResponseData u now none bucket = .error (.err .ErrDbNotInit) ∧
    Get none bucket key = .error (.err .ErrDbNotInit) ∧
    GetResponse u none bucket key = .error (.err .ErrDbNotInit) :=
  ⟨rfl, rfl, rfl, rfl, rfl, rfl⟩

/-! ## Persisted layout -/

/-- C18 (persisted layout). The byte string `SaveResponseData` builds for a
record `r` and passes to `Save` (and which is what is stored under the key
whenever `Put` accepts the key and the bytes) has length
`14 + len(r.Header) + len(r.Body)`, and read at the index constants that
`GetResponse` and `ClearExpiredResponseData` use it holds the 4-byte
`createdAt` at offset 0, the 2-byte status code at offset 4, the 2-byte
compress flag at offset 6, the 4-byte TTL at offset 8, the 2-byte header
length `uint16(len(r.Header))` at offset 12, the header at offset 14 and the
body right after the header. -/
theorem persisted_layout (u : Util) (hu : u.Inverse) (now : Nat) (db : DB)
    (bucket key : Bytes) (b : Bucket) (r : ResponseData) (hb : db bucket = some b)
    (hw : r.WellTyped) (hnow : storedCreatedAt now r < 2 ^ 32) :
    SaveResponseData u now (some db) bucket key r
      = Save (some db) bucket key (recordBytes u now r) ∧
    (putError key (recordBytes u now r) = none →
      ∃ db1, SaveResponseData u now (some db) bucket key r = .ok db1 ∧
        Get (some db1) bucket key = .ok (some (recordBytes u now r))) ∧
    (recordBytes u now r).length = 14 + r.Header.length + r.Body.length ∧
    (createIndex, statusCodeIndex, compressIndex, ttlIndex, headerLengthIndex, headerIndex)
      = (0, 4, 6, 8, 12, 14) ∧
    sliceRange (recordBytes u now r) createIndex statusCodeIndex
      = .ok (u.ConvertUint32ToBytes (storedCreatedAt now r)) ∧
    sliceRange (recordBytes u now r) statusCodeIndex compressIndex
      = .ok (u.ConvertUint16ToBytes r.StatusCode) ∧
    sliceRange (recordBytes u now r) compressIndex ttlIndex
      = .ok (u.ConvertUint16ToBytes r.Compress) ∧
    sliceRange (recordBytes u now r) ttlIndex headerLengthIndex
      = .ok (u.ConvertUint32ToBytes r.TTL) ∧
    sliceRange (recordBytes u now r) headerLengthIndex headerIndex
      = .ok (u.ConvertUint16ToBytes (r.Header.length % 2 ^ 16)) ∧
    sliceRange (recordBytes u now r) headerIndex (headerIndex + r.Header.length)
      = .ok r.Header ∧
    sliceFrom (recordBytes u now r) (headerIndex + r.Header.length) = .ok r.Body := by
  obtain ⟨ha, hb1, hc, hd, he⟩ := recordBytes_parts u hu now r hw hnow
  obtain ⟨h1, h2, h3, h4, h5⟩ :=
    slices_of_layout _ _ _ _ _ (r.Header ++ r.Body) ha hb1 hc hd he
  rw [← recordBytes] at h1 h2 h3 h4 h5
  refine ⟨rfl, fun hput => ⟨_, SaveResponseData_stores u now db bucket key b r hb hput⟩,
    recordBytes_length u hu now r hw hnow, rfl, h2, h3, h4, h5, h1, ?_, ?_⟩
  · have h := sliceRange_mid
      (u.ConvertUint32ToBytes (storedCreatedAt now r) ++ (u.ConvertUint16ToBytes r.StatusCode ++
        (u.ConvertUint16ToBytes r.Compress ++ (u.ConvertUint32ToBytes r.TTL ++
          u.ConvertUint16ToBytes (r.Header.length % 2 ^ 16)))))
      r.Header r.Body headerIndex (headerIndex + r.Header.length)
      (by simp only [headerIndex, List.length_append, ha, hb1, hc, hd, he]) rfl
    simpa only [recordBytes, List.append_assoc] using h
  · have h := sliceFrom_append
      (u.ConvertUint32ToBytes (storedCreatedAt now r) ++ (u.ConvertUint16ToBytes r.StatusCode ++
        (u.ConvertUint16ToBytes r.Compress ++ (u.ConvertUint32ToBytes r.TTL ++
          (u.ConvertUint16ToBytes (r.Header.length % 2 ^ 16) ++ r.Header)))))
      r.Body (headerIndex + r.Header.length)
      (by simp only [headerIndex, List.length_append, ha, hb1, hc, hd, he]; omega)
    simpa only [recordBytes, List.append_assoc] using h

/-- C18 at a concrete input: `sampleRecord` saved with the little-endian
conversions under the key `[107]`, which `Put` accepts. -/
theorem persisted_layout_witness :
    putError [107] (recordBytes leUtil 5 sampleRecord) = none ∧
    (SaveResponseData leUtil 5 (some sampleDB) [98] [107] sampleRecord
      = Save (some sampleDB) [98] [107] (recordBytes leUtil 5 sampleRecord) ∧
    (putError [107] (recordBytes leUtil 5 sampleRecord) = none →
      ∃ db1, SaveResponseData leUtil 5 (some sampleDB) [98] [107] sampleRecord = .ok db1 ∧
        Get (some db1) [98] [107] = .ok (some (recordBytes leUtil 5 sampleRecord))) ∧
    (recordBytes leUtil 5 sampleRecord).length
      = 14 + sampleRecord.Header.length + sampleRecord.Body.length ∧
    (createIndex, statusCodeIndex, compressIndex, ttlIndex, headerLengthIndex, headerIndex)
      = (0, 4, 6, 8, 12, 14) ∧
    sliceRange (recordBytes leUtil 5 sampleRecord) createIndex statusCodeIndex
      = .ok (leUtil.ConvertUint32ToBytes (storedCreatedAt 5 sampleRecord)) ∧
    sliceRange (recordBytes leUtil 5 sampleRecord) statusCodeIndex compressIndex
      = .ok (leUtil.ConvertUint16ToBytes sampleRecord.StatusCode) ∧
    sliceRange (recordBytes leUtil 5 sampleRecord) compressIndex ttlIndex
      = .ok (leUtil.ConvertUint16ToBytes sampleRecord.Compress) ∧
    sliceRange (recordBytes leUtil 5 sampleRecord) ttlIndex headerLengthIndex
      = .ok (leUtil.ConvertUint32ToBytes sampleRecord.TTL) ∧
    sliceRange (recordBytes leUtil 5 sampleRecord) headerLengthIndex headerIndex
      = .ok (leUtil.ConvertUint16ToBytes (sampleRecord.Header.length % 2 ^ 16)) ∧
    sliceRange (recordBytes leUtil 5 sampleRecord) headerIndex
        (headerIndex + sampleRecord.Header.length)
      = .ok sampleRecord.Header ∧
    sliceFrom (recordBytes leUtil 5 sampleRecord) (headerIndex + sampleRecord.Header.length)
      = .ok sampleRecord.Body) :=
  ⟨putError_samples.1,
    persisted_layout leUtil leUtil_inverse 5 sampleDB [98] [107] [] sampleRecord
      (by decide) (by decide) (by decide)⟩

/-! ## HTTPCache transitions: the claim -/

/-- C19 (waiter list emptied in `HTTPCache`), evaluated on the code: on an
`HTTPCache` in `StatusFetching` with one waiter channel (the state after two
`get()` calls on a new `HTTPCache`), `HitForPass(300)`
returns after sending one value on the channel, but `hc.chans` still holds
the channel; a further `HitForPass` or `Cachable` call on the same
`HTTPCache` sends on that channel again and, its only receiver having
received already, blocks for ever. -/
theorem HitForPass_keeps_waiter_list :
    (HTTPCache.get 50 (HTTPCache.get 50 NewHTTPCache).2).2 = fetchingHTTPCache ∧
    ∃ hc1 heap1, HTTPCache.HitForPass 100 300 fetchingHTTPCache [⟨[]⟩] = .ok (hc1, heap1) ∧
      heap1 = [⟨[true]⟩] ∧
      hc1.chans = [0] ∧ hc1.chans ≠ [] ∧
      HTTPCache.HitForPass 101 300 hc1 heap1 = .error .blocked ∧
      HTTPCache.Cachable 101 300 200 [1] [] [] hc1 heap1 = .error .blocked := by
  refine ⟨by decide, _, _, rfl, ?_, ?_, ?_, ?_, ?_⟩ <;> decide

/-! ## Dispatcher: the claims -/

/-- C11 (uncacheable responses become hit-for-pass). In the store step of the
Dispatcher, for a request status other than `Cacheable` and `Pass`: when the
response has `TTL == 0` the only call made is
`HitForPass(identity, vars.HitForPassTTL)` (and no call at all when the
identity is not set), so `SaveResponse` is not called; when `TTL != 0` the
calls made are exactly those of `save` on the response carrying the configured
`CompressMinLength` and `CompressLevel`. -/
theorem uncacheable_becomes_hit_for_pass (dv : DispatcherVars) (cp : Compression)
    (compressMinLength compressLevel status : Int) (identity : Option Bytes) (cr : Response)
    (compressible : Bool) (hC : status ≠ dv.Cacheable) (hP : status ≠ dv.Pass) :
    (cr.TTL = 0 →
      dispatcherStore dv cp compressMinLength compressLevel status identity cr compressible
        = match identity with
          | some id => [.hitForPass id dv.HitForPassTTL]
          | none => []) ∧
    (cr.TTL ≠ 0 → ∀ id,
      dispatcherStore dv cp compressMinLength compressLevel status (some id) cr compressible
        = save dv cp id
            { cr with CompressMinLength := compressMinLength, CompressLevel := compressLevel }
            compressible) := by
  constructor
  · intro h0
    cases identity <;> simp [dispatcherStore, hC, hP, h0]
  · intro h0 id
    simp [dispatcherStore, hC, hP, h0]

/-- C11 at a concrete input: request status 1 (`Fetching`), once with TTL 0
and once with TTL 600. -/
theorem uncacheable_becomes_hit_for_pass_witness :
    dispatcherStore specDispatcherVars sampleCompression 1024 5 1 (some [107])
        { abcdResponse with TTL := 0 } true = [.hitForPass [107] 300] ∧
    dispatcherStore specDispatcherVars sampleCompression 1024 5 1 (some [107]) abcdResponse true
      = save specDispatcherVars sampleCompression [107]
          { abcdResponse with CompressMinLength := 1024, CompressLevel := 5 } true :=
  ⟨(uncacheable_becomes_hit_for_pass specDispatcherVars sampleCompression 1024 5 1 (some [107])
      { abcdResponse with TTL := 0 } true (by decide) (by decide)).1 rfl,
   (uncacheable_becomes_hit_for_pass specDispatcherVars sampleCompression 1024 5 1 (some [107])
      abcdResponse true (by decide) (by decide)).2 (by decide) [107]⟩

/-- C12 (short body bypass on store) fails on the code for a gzip-only
upstream body: the response has an empty `Body` and the gzip form of `abcd`,
its raw body (4 bytes) is shorter than the minimum length 1024, and the record
passed to `SaveResponse` is the response as it arrived: it holds the gzip
variant and no raw variant. -/
theorem short_gzip_only_body_keeps_gzip :
    sampleCompression.Gunzip gzipAbcdResponse.GzipBody = some [97, 98, 99, 100] ∧
    effectiveMinLength specDispatcherVars gzipAbcdResponse = 1024 ∧
    save specDispatcherVars sampleCompression [107] gzipAbcdResponse true
      = [.gunzip [31, 97, 98, 99, 100], .saveResponse [107] gzipAbcdResponse,
          .cacheable [107] 600] ∧
    gzipAbcdResponse.GzipBody ≠ [] ∧ gzipAbcdResponse.Body = [] := by
  refine ⟨rfl, ?_, ?_, ?_, rfl⟩ <;> decide

/-- C12 as amended: for a compressible response with status other than 204
whose raw body (`Body`, or the gunzip of `GzipBody` when `Body` is empty) is
non-empty and shorter than the effective minimum length, `save` calls neither
`Gzip` nor `BrotliEncode` and passes the response to `SaveResponse` unchanged,
then marks the key Cacheable: the record holds exactly the variants that
arrived. -/
theorem short_body_saved_unchanged (dv : DispatcherVars) (cp : Compression) (identity : Bytes)
    (resp : Response) (raw : Bytes) (h204 : resp.StatusCode ≠ 204)
    (hraw : (resp.Body ≠ [] ∧ raw = resp.Body) ∨
      (resp.Body = [] ∧ resp.GzipBody ≠ [] ∧ cp.Gunzip resp.GzipBody = some raw))
    (hne : raw ≠ []) (hshort : (raw.length : Int) < effectiveMinLength dv resp) :
    save dv cp identity resp true
      = (if resp.Body = [] then [.gunzip resp.GzipBody] else [])
          ++ [.saveResponse identity resp, .cacheable identity resp.TTL] := by
  have hlen : (raw.length : Int) ≠ 0 := by
    intro h0
    exact hne (List.length_eq_zero.mp (by exact_mod_cast h0))
  have htail : saveBody dv cp identity resp resp.CompressLevel (effectiveMinLength dv resp) raw
      = [.saveResponse identity resp, .cacheable identity resp.TTL] := by
    simp [saveBody, hlen, hshort, doSave]
  rcases hraw with ⟨hb, rfl⟩ | ⟨hb, hg, hun⟩
  · simp [save, h204, hb, htail]
  · simp [save, h204, hb, hg, hun, htail]

/-- C12 as amended, at the input of the claim: `Body = "abcd"`. -/
theorem short_body_saved_unchanged_witness :
    save specDispatcherVars sampleCompression [107] abcdResponse true
      = (if abcdResponse.Body = [] then [.gunzip abcdResponse.GzipBody] else [])
          ++ [.saveResponse [107] abcdResponse, .cacheable [107] abcdResponse.TTL] :=
  short_body_saved_unchanged specDispatcherVars sampleCompression [107] abcdResponse
    [97, 98, 99, 100] (by decide) (Or.inl ⟨by decide, rfl⟩) (by decide) (by decide)

/-- C13 (gzip-only upstream body on store). For a compressible response with
status other than 204, empty `Body`, non-empty `GzipBody` and empty `BrBody`:
(a) if `Gunzip(GzipBody)` fails, `save` passes the response to `SaveResponse`
unchanged and then marks the key Cacheable with `resp.TTL`; (b) if `Gunzip`
gives raw bytes `b` of length at least the effective minimum length, `save`
calls `BrotliEncode(b, level)` and the record it persists keeps `GzipBody`
(and the empty `Body`) and has `BrBody = BrotliEncode(b, level)`; `Gzip` is
not called. (When `b` is empty, which needs a minimum length of 0 or less, no
record is persisted: the key is made hit-for-pass.) -/
theorem gzip_only_body_on_store (dv : DispatcherVars) (cp : Compression) (identity : Bytes)
    (resp : Response) (h204 : resp.StatusCode ≠ 204) (hB : resp.Body = [])
    (hG : resp.GzipBody ≠ []) (hBr : resp.BrBody = []) :
    (cp.Gunzip resp.GzipBody = none →
      save dv cp identity resp true
        = [.gunzip resp.GzipBody, .saveResponse identity resp,
            .cacheable identity resp.TTL]) ∧
    (∀ b, cp.Gunzip resp.GzipBody = some b → effectiveMinLength dv resp ≤ (b.length : Int) →
      save dv cp identity resp true
        = .gunzip resp.GzipBody ::
            (if b = [] then [.hitForPass identity dv.HitForPassTTL]
             else [.brotliEncode b resp.CompressLevel,
                   .saveResponse identity
                     { resp with BrBody := cp.BrotliEncode b resp.CompressLevel },
                   .cacheable identity resp.TTL])) := by
  constructor
  · intro hun
    simp [save, h204, hB, hG, hun, doSave]
  · intro b hun hmin
    by_cases hb : b = []
    · subst hb
      simp [save, h204, hB, hG, hun, saveBody]
    · have hlen : (b.length : Int) ≠ 0 := by
        intro h0
        exact hb (List.length_eq_zero.mp (by exact_mod_cast h0))
      have hnot : ¬ (b.length : Int) < effectiveMinLength dv resp := by omega
      simp [save, h204, hB, hG, hun, saveBody, hb, hlen, hnot, hBr, doSave]

/-- C13 at concrete inputs: a gzip variant that cannot be decompressed, and
the gzip form of `abcd` with minimum length 2. -/
theorem gzip_only_body_on_store_witness :
    save specDispatcherVars sampleCompression [107] badGzipResponse true
      = [.gunzip badGzipResponse.GzipBody, .saveResponse [107] badGzipResponse,
          .cacheable [107] badGzipResponse.TTL] ∧
    save specDispatcherVars sampleCompression [107] gzipLongResponse true
      = .gunzip gzipLongResponse.GzipBody ::
          (if ([97, 98, 99, 100] : Bytes) = [] then [.hitForPass [107] 300]
           else [.brotliEncode [97, 98, 99, 100] gzipLongResponse.CompressLevel,
                 .saveResponse [107]
                   { gzipLongResponse with
                     BrBody := sampleCompression.BrotliEncode [97, 98, 99, 100]
                       gzipLongResponse.CompressLevel },
                 .cacheable [107] gzipLongResponse.TTL]) :=
  ⟨(gzip_only_body_on_store specDispatcherVars sampleCompression [107] badGzipResponse
      (by decide) rfl (by decide) rfl).1 rfl,
   (gzip_only_body_on_store specDispatcherVars sampleCompression [107] gzipLongResponse
      (by decide) rfl (by decide) rfl).2 [97, 98, 99, 100] rfl (by decide)⟩

/-- Every record that lines 64-89 of `save` persist has a non-empty variant,
when the raw `body` is the response's `Body` or the response has a gzip
variant. -/
theorem saveBody_record_has_body (dv : DispatcherVars) (cp : Compression)
    (identity : Bytes) (resp : Response) (level compressMinLength : Int) (body : Bytes)
    (hsrc : resp.GzipBody ≠ [] ∨ resp.Body = body) (id1 : Bytes) (rec : Response)
    (hmem : Event.saveResponse id1 rec
      ∈ saveBody dv cp identity resp level compressMinLength body) :
    rec.Body ≠ [] ∨ rec.GzipBody ≠ [] ∨ rec.BrBody ≠ [] := by
  unfold saveBody at hmem
  simp only at hmem
  by_cases h0 : ((body.length : Nat) : Int) = 0
  · simp [h0] at hmem
  · have hbody : body ≠ [] := by
      rintro rfl
      exact h0 rfl
    have hresp : resp.Body ≠ [] ∨ resp.GzipBody ≠ [] := by
      rcases hsrc with h | h
      · exact Or.inr h
      · exact Or.inl (h ▸ hbody)
    rw [if_neg h0] at hmem
    by_cases hshort : ((body.length : Nat) : Int) < compressMinLength
    · rw [if_pos hshort] at hmem
      simp only [doSave, List.mem_cons, Event.saveResponse.injEq, List.mem_singleton,
        reduceCtorEq, or_false, List.not_mem_nil] at hmem
      obtain ⟨_, rfl⟩ := hmem
      rcases hresp with h | h
      · exact Or.inl h
      · exact Or.inr (Or.inl h)
    · rw [if_neg hshort] at hmem
      by_cases hg : resp.GzipBody.length = 0
      · have hgz : resp.GzipBody = [] := List.length_eq_zero.mp hg
        have hB : resp.Body ≠ [] := by
          rcases hresp with h | h
          · exact h
          · exact absurd hgz h
        by_cases hz : (cp.Gzip body level).length = 0 <;> by_cases hbr : resp.BrBody.length = 0 <;>
          simp [hg, hz, hbr, doSave] at hmem <;> obtain ⟨_, rfl⟩ := hmem <;> simp_all
      · have hgz : resp.GzipBody ≠ [] := fun h => hg (by rw [h]; rfl)
        by_cases hbr : resp.BrBody.length = 0 <;>
          simp [hg, hbr, doSave] at hmem <;> obtain ⟨_, rfl⟩ := hmem <;> simp_all

/-- C17 (invariant R2 on the store path) fails on the code for a response
that is not compressible: a response with status 200 whose `Body`, `GzipBody`
and `BrBody` are all empty is passed to `SaveResponse` as it is. -/
theorem incompressible_empty_response_persisted :
    emptyResponse.StatusCode ≠ 204 ∧
    emptyResponse.Body = [] ∧ emptyResponse.GzipBody = [] ∧ emptyResponse.BrBody = [] ∧
    save specDispatcherVars sampleCompression [107] emptyResponse false
      = [.saveResponse [107] emptyResponse, .cacheable [107] 600] := by
  refine ⟨?_, rfl, rfl, rfl, ?_⟩ <;> decide

/-- With the compressible flag not set, the record `save` passes to
`SaveResponse` is the response as it arrived. -/
theorem incompressible_store_record (dv : DispatcherVars) (cp : Compression)
    (identity : Bytes) (resp : Response) (id1 : Bytes) (rec : Response)
    (hmem : Event.saveResponse id1 rec ∈ save dv cp identity resp false) : rec = resp := by
  simp [save, doSave] at hmem
  exact hmem.2

/-- C17 as amended: for every response, if `save` called with the
compressible flag set passes a record to `SaveResponse` and the record's
`StatusCode` is not 204, then at least one of its `Body`, `GzipBody` and
`BrBody` is non-empty; a compressible body-bearing response whose variants
are all empty is never persisted. -/
theorem compressible_store_keeps_body (dv : DispatcherVars) (cp : Compression)
    (identity : Bytes) (resp : Response) (id1 : Bytes) (rec : Response)
    (hmem : Event.saveResponse id1 rec ∈ save dv cp identity resp true)
    (h204 : rec.StatusCode ≠ 204) :
    rec.Body ≠ [] ∨ rec.GzipBody ≠ [] ∨ rec.BrBody ≠ [] := by
  unfold save at hmem
  simp only at hmem
  by_cases hs : resp.StatusCode = 204
  · simp only [hs, true_or, if_true, doSave, List.mem_cons, Event.saveResponse.injEq,
      List.mem_singleton, reduceCtorEq, or_false, List.not_mem_nil] at hmem
    obtain ⟨_, rfl⟩ := hmem
    exact absurd hs h204
  · by_cases hgz : resp.Body.length = 0 ∧ resp.GzipBody.length ≠ 0
    · have hG : resp.GzipBody ≠ [] := fun h => hgz.2 (by rw [h]; rfl)
      cases hun : cp.Gunzip resp.GzipBody with
      | none =>
        simp [hs, hgz, hun, doSave] at hmem
        obtain ⟨_, rfl⟩ := hmem
        exact Or.inr (Or.inl hG)
      | some b =>
        simp [hs, hgz, hun] at hmem
        exact saveBody_record_has_body dv cp identity resp _ _ b (Or.inl hG) id1 rec hmem
    · simp only [hs, Bool.true_eq_false, or_self, if_false, hgz] at hmem
      exact saveBody_record_has_body dv cp identity resp _ _ resp.Body (Or.inr rfl) id1 rec
        hmem

/-- C17 as amended, at a concrete input: the record persisted for the
response with body `abcd`. -/
theorem compressible_store_keeps_body_witness :
    Event.saveResponse [107] abcdResponse
      ∈ save specDispatcherVars sampleCompression [107] abcdResponse true ∧
    abcdResponse.StatusCode ≠ 204 ∧
    (abcdResponse.Body ≠ [] ∨ abcdResponse.GzipBody ≠ [] ∨ abcdResponse.BrBody ≠ []) :=
  ⟨by decide, by decide,
    compressible_store_keeps_body specDispatcherVars sampleCompression [107] abcdResponse [107]
      abcdResponse (by decide) (by decide)⟩

/-! ## Status table: the invariant along call sequences -/

theorem setRs_setRs (m : Bytes → Option RequestStatus) (key : Bytes) (r0 r1 : RequestStatus) :
    setRs (setRs m key r0) key r1 = setRs m key r1 := by
  funext k
  by_cases h : k = key <;> simp [setRs, h]

theorem lt_length_of_getElem? (heap : List Chan) (c : Nat) (ch : Chan)
    (h : heap[c]? = some ch) : c < heap.length := by
  rcases Nat.lt_or_ge c heap.length with h1 | h1
  · exact h1
  · rw [List.getElem?_eq_none h1] at h; cases h

theorem TableInv_empty : TableInv Table.empty := by
  refine ⟨?_, ?_, ?_⟩
  · intro key rs h; cases h
  · intro k1 k2 rs1 rs2 _ h; cases h
  · intro ch h; cases h

/-- Replacing an entry by one without waiters keeps the invariant. -/
theorem TableInv_reset (s : Table) (key : Bytes) (a b : Nat) (st : Int) (hinv : TableInv s) :
    TableInv ⟨setRs s.rsMap key ⟨a, b, st, []⟩, s.chans⟩ := by
  obtain ⟨h1, h2, h3⟩ := hinv
  unfold TableInv
  dsimp only
  refine ⟨?_, ?_, h3⟩
  · intro k rs hk
    by_cases e : k = key
    · subst e
      rw [setRs_same] at hk
      cases hk
      exact ⟨List.nodup_nil, fun c hc => absurd hc (List.not_mem_nil c)⟩
    · rw [setRs_other _ _ _ _ e] at hk
      exact h1 k rs hk
  · intro k1 k2 rs1 rs2 hne hk1 hk2 c hc
    by_cases e1 : k1 = key
    · subst e1
      rw [setRs_same] at hk1
      cases hk1
      exact absurd hc (List.not_mem_nil c)
    · by_cases e2 : k2 = key
      · subst e2
        rw [setRs_same] at hk2
        cases hk2
        exact List.not_mem_nil c
      · rw [setRs_other _ _ _ _ e1] at hk1
        rw [setRs_other _ _ _ _ e2] at hk2
        exact h2 k1 k2 rs1 rs2 hne hk1 hk2 c hc

/-- Parking a caller on a fresh channel keeps the invariant. -/
theorem TableInv_park (s : Table) (key : Bytes) (rs : RequestStatus) (hinv : TableInv s)
    (hk : s.rsMap key = some rs) :
    TableInv ⟨setRs s.rsMap key { rs with waitingChans := rs.waitingChans ++ [s.chans.length] },
      s.chans ++ [⟨[], false⟩]⟩ := by
  obtain ⟨h1, h2, h3⟩ := hinv
  have hold : ∀ k r, s.rsMap k = some r → ∀ c ∈ r.waitingChans,
      c < s.chans.length ∧ (s.chans ++ [(⟨[], false⟩ : Chan)])[c]? = some ⟨[], false⟩ := by
    intro k r hkr c hc
    have hget := (h1 k r hkr).2 c hc
    have hlt := lt_length_of_getElem? _ _ _ hget
    exact ⟨hlt, by rw [List.getElem?_append_left hlt]; exact hget⟩
  have hfresh : ∀ k r, s.rsMap k = some r → s.chans.length ∉ r.waitingChans := by
    intro k r hkr hmem
    exact absurd (hold k r hkr _ hmem).1 (Nat.lt_irrefl _)
  unfold TableInv
  dsimp only
  refine ⟨?_, ?_, ?_⟩
  · intro k r hkr
    by_cases e : k = key
    · subst e
      rw [setRs_same] at hkr
      cases hkr
      refine ⟨?_, ?_⟩
      · show (rs.waitingChans ++ [s.chans.length]).Nodup
        rw [List.nodup_append]
        refine ⟨(h1 k rs hk).1, List.nodup_singleton _, ?_⟩
        intro c hc hc1
        rw [List.mem_singleton] at hc1
        subst hc1
        exact hfresh k rs hk hc
      · intro c hc
        rcases List.mem_append.mp hc with hc | hc
        · exact (hold k rs hk c hc).2
        · rw [List.mem_singleton] at hc
          subst hc
          show (s.chans ++ [(⟨[], false⟩ : Chan)])[s.chans.length]? = some ⟨[], false⟩
          rw [List.getElem?_append_right (Nat.le_refl _)]
          simp
    · rw [setRs_other _ _ _ _ e] at hkr
      exact ⟨(h1 k r hkr).1, fun c hc => (hold k r hkr c hc).2⟩
  · intro k1 k2 rs1 rs2 hne hk1 hk2 c hc
    by_cases e1 : k1 = key
    · subst e1
      rw [setRs_same] at hk1
      cases hk1
      rw [setRs_other _ _ _ _ (Ne.symm hne)] at hk2
      rcases List.mem_append.mp hc with hc | hc
      · exact h2 k1 k2 rs rs2 hne hk hk2 c hc
      · rw [List.mem_singleton] at hc
        subst hc
        exact hfresh k2 rs2 hk2
    · rw [setRs_other _ _ _ _ e1] at hk1
      by_cases e2 : k2 = key
      · subst e2
        rw [setRs_same] at hk2
        cases hk2
        intro hmem
        rcases List.mem_append.mp hmem with hm | hm
        · exact h2 k1 k2 rs1 rs hne hk1 hk c hc hm
        · rw [List.mem_singleton] at hm
          subst hm
          exact hfresh k1 rs1 hk1 hc
      · rw [setRs_other _ _ _ _ e2] at hk2
        exact h2 k1 k2 rs1 rs2 hne hk1 hk2 c hc
  · intro ch hch
    rcases List.mem_append.mp hch with h | h
    · exact h3 ch h
    · rw [List.mem_singleton] at h
      exact Or.inl h

/-- `GetRequestStatus` keeps the invariant, whatever branch it takes. -/
theorem TableInv_GetRequestStatus (v : Vars) (tExp tInit : Nat) (key : Bytes) (s : Table)
    (hinv : TableInv s) : TableInv (GetRequestStatus v tExp tInit key s).2 := by
  cases hk : s.rsMap key with
  | none =>
    rw [GetRequestStatus_absent v tExp tInit key s hk, setRs_setRs]
    exact TableInv_reset s key tInit 0 v.Fetching hinv
  | some rs =>
    by_cases hx : isExpired tExp rs = true
    · have : (GetRequestStatus v tExp tInit key s).2
          = ⟨setRs s.rsMap key ⟨tInit, 0, v.Fetching, []⟩, s.chans⟩ := by
        simp [GetRequestStatus, hk, hx, initRequestStatus, setRs_setRs]
      rw [this]
      exact TableInv_reset s key tInit 0 v.Fetching hinv
    · by_cases hst : rs.status = v.Fetching
      · have : (GetRequestStatus v tExp tInit key s).2
            = ⟨setRs s.rsMap key { rs with waitingChans := rs.waitingChans ++ [s.chans.length] },
                s.chans ++ [⟨[], false⟩]⟩ := by
          simp [GetRequestStatus, hk, hx, hst]
        rw [this]
        exact TableInv_park s key rs hinv hk
      · have : (GetRequestStatus v tExp tInit key s).2 = s := by
          simp [GetRequestStatus, hk, hx, hst]
        rw [this]
        exact hinv

/-- In a table that satisfies the invariant a transition returns, and the
invariant holds afterwards. -/
theorem TableInv_trigger (key : Bytes) (st : Int) (ttl : Nat) (s : Table) (hinv : TableInv s) :
    ∃ s1, triggerWatingRequstAndSetStatus key st ttl s = .ok s1 ∧ TableInv s1 := by
  cases hk : s.rsMap key with
  | none => exact ⟨s, by simp [triggerWatingRequstAndSetStatus, hk], hinv⟩
  | some rs =>
    obtain ⟨h1, h2, h3⟩ := hinv
    obtain ⟨heap1, hrun, hsig, hrest⟩ :=
      signalAll_open st rs.waitingChans s.chans (h1 key rs hk).1 (h1 key rs hk).2
    refine ⟨⟨setRs s.rsMap key ⟨rs.createdAt, ttl, st, []⟩, heap1⟩,
      by simp [triggerWatingRequstAndSetStatus, hk, hrun], ?_⟩
    unfold TableInv
    dsimp only
    refine ⟨?_, ?_, ?_⟩
    · intro k r hkr
      by_cases e : k = key
      · subst e
        rw [setRs_same] at hkr
        cases hkr
        exact ⟨List.nodup_nil, fun c hc => absurd hc (List.not_mem_nil c)⟩
      · rw [setRs_other _ _ _ _ e] at hkr
        refine ⟨(h1 k r hkr).1, fun c hc => ?_⟩
        rw [hrest c (h2 k key r rs e hkr hk c hc)]
        exact (h1 k r hkr).2 c hc
    · intro k1 k2 rs1 rs2 hne hk1 hk2 c hc
      by_cases e1 : k1 = key
      · subst e1
        rw [setRs_same] at hk1
        cases hk1
        exact absurd hc (List.not_mem_nil c)
      · by_cases e2 : k2 = key
        · subst e2
          rw [setRs_same] at hk2
          cases hk2
          exact List.not_mem_nil c
        · rw [setRs_other _ _ _ _ e1] at hk1
          rw [setRs_other _ _ _ _ e2] at hk2
          exact h2 k1 k2 rs1 rs2 hne hk1 hk2 c hc
    · intro ch hch
      obtain ⟨i, hi⟩ := List.mem_iff_getElem?.mp hch
      by_cases hmem : i ∈ rs.waitingChans
      · rw [hsig i hmem] at hi
        cases hi
        exact Or.inr ⟨st, rfl⟩
      · rw [hrest i hmem] at hi
        exact h3 ch (List.mem_iff_getElem?.mpr ⟨i, hi⟩)

/-- Every call keeps the invariant and returns. -/
theorem TableInv_step (v : Vars) (s : Table) (c : Call) (hinv : TableInv s) :
    ∃ s1, step v s c = .ok s1 ∧ TableInv s1 := by
  cases c with
  | get key tExp tInit => exact ⟨_, rfl, TableInv_GetRequestStatus v tExp tInit key s hinv⟩
  | hitForPass key ttl => exact TableInv_trigger key v.HitForPass ttl s hinv
  | cacheable key ttl => exact TableInv_trigger key v.Cacheable ttl s hinv

/-- Every sequence of calls from a table that satisfies the invariant runs
to its end, and the invariant holds in the table it reaches. -/
theorem TableInv_run (v : Vars) (calls : List Call) :
    ∀ s, TableInv s → ∃ s1, run v calls s = .ok s1 ∧ TableInv s1 := by
  induction calls with
  | nil => intro s hinv; exact ⟨s, rfl, hinv⟩
  | cons c cs ih =>
    intro s hinv
    obtain ⟨s1, hstep, hinv1⟩ := TableInv_step v s c hinv
    obtain ⟨s2, hrun, hinv2⟩ := ih s1 hinv1
    exact ⟨s2, by simp [run, hstep, hrun], hinv2⟩

/-- C14 (sends never block or repeat in the status table). Every sequence of
`GetRequestStatus`, `HitForPass` and `Cacheable` calls on any keys, started
on the empty table, runs to its end without a blocked send or a panic (a send
on or close of a closed channel). In the table it reaches every channel held
in a waiter list is open with an empty buffer, every channel ever made holds
at most one value (a channel is never received from in the model, so its
buffer holds all the values sent on it), and a further `HitForPass` or
`Cacheable` call on any key returns. -/
theorem sends_never_block (v : Vars) (calls : List Call) :
    ∃ s, run v calls Table.empty = .ok s ∧
      (∀ key rs, s.rsMap key = some rs →
        ∀ c ∈ rs.waitingChans, s.chans[c]? = some ⟨[], false⟩) ∧
      (∀ ch ∈ s.chans, ch.buf.length ≤ 1) ∧
      (∀ key ttl, (∃ s1, HitForPass v key ttl s = .ok s1) ∧
        ∃ s1, Cacheable v key ttl s = .ok s1) := by
  obtain ⟨s, hrun, hinv⟩ := TableInv_run v calls Table.empty TableInv_empty
  refine ⟨s, hrun, fun key rs hk => (hinv.1 key rs hk).2, ?_, ?_⟩
  · intro ch hch
    rcases hinv.2.2 ch hch with h | ⟨x, h⟩ <;> simp [h]
  · intro key ttl
    obtain ⟨s1, h1, _⟩ := TableInv_trigger key v.HitForPass ttl s hinv
    obtain ⟨s2, h2, _⟩ := TableInv_trigger key v.Cacheable ttl s hinv
    exact ⟨⟨s1, h1⟩, ⟨s2, h2⟩⟩

/-! ## CreatedAt filled on save -/

/-- Parsing the bytes built for `r` when `uint16(len(Header))` plus
`headerIndex` does not wrap: the header read back is the first
`len(Header) mod 65536` bytes of the header, and the rest of the header is
read as the beginning of the body. -/
theorem parseResponse_recordBytes_truncated (u : Util) (hu : u.Inverse) (now : Nat)
    (r : ResponseData) (hw : r.WellTyped) (hnow : storedCreatedAt now r < 2 ^ 32)
    (hfit : headerIndex + r.Header.length % 2 ^ 16 < 2 ^ 16) :
    parseResponse u (recordBytes u now r) =
      .ok { CreatedAt := storedCreatedAt now r
            StatusCode := r.StatusCode
            Compress := r.Compress
            TTL := r.TTL
            Header := r.Header.take (r.Header.length % 2 ^ 16)
            Body := r.Header.drop (r.Header.length % 2 ^ 16) ++ r.Body } := by
  obtain ⟨ha, hb, hc, hd, he⟩ := recordBytes_parts u hu now r hw hnow
  have hle : r.Header.length % 2 ^ 16 ≤ r.Header.length := Nat.mod_le _ _
  have htake : (r.Header.take (r.Header.length % 2 ^ 16)).length = r.Header.length % 2 ^ 16 := by
    rw [List.length_take]; exact Nat.min_eq_left hle
  have hlen : u.ConvertBytesToUint16 (u.ConvertUint16ToBytes (r.Header.length % 2 ^ 16))
      = (r.Header.take (r.Header.length % 2 ^ 16)).length := by
    rw [hu.inv16 _ (Nat.mod_lt _ (by norm_num)), htake]
  have hsplit : r.Header ++ r.Body
      = r.Header.take (r.Header.length % 2 ^ 16)
          ++ (r.Header.drop (r.Header.length % 2 ^ 16) ++ r.Body) := by
    rw [← List.append_assoc, List.take_append_drop]
  rw [recordBytes, hsplit,
    parseResponse_layout u _ _ _ _ _ _ _ ha hb hc hd he hlen (by rw [htake]; exact hfit),
    hu.inv32 _ hnow, hu.inv16 _ hw.2.1, hu.inv16 _ hw.2.2.1, hu.inv32 _ hw.2.2.2]

/-- A record whose header is 65536 bytes long, saved with `CreatedAt == 0` at
clock time 5, is read back with `CreatedAt == 5`, an empty header (the
header-length field holds `uint16(65536) = 0`) and the header bytes at the
beginning of the body. -/
theorem oversized_header_not_read_back :
    ∃ db1 rec, SaveResponseData leUtil 5 (some sampleDB) [98] [107] oversizedZeroCreatedRecord
        = .ok db1 ∧
      GetResponse leUtil (some db1) [98] [107] = .ok (some rec) ∧
      rec.CreatedAt = 5 ∧ rec.Header = [] ∧ rec.Header ≠ oversizedZeroCreatedRecord.Header := by
  have hw : oversizedZeroCreatedRecord.WellTyped := by decide
  have hnow : storedCreatedAt 5 oversizedZeroCreatedRecord < 2 ^ 32 := by decide
  have hL := oversizedZeroCreatedRecord_length
  have hmod : oversizedZeroCreatedRecord.Header.length % 2 ^ 16 = 0 := by rw [hL]; norm_num
  obtain ⟨hsave, _⟩ := SaveResponseData_stores leUtil 5 sampleDB [98] [107] []
    oversizedZeroCreatedRecord (by decide) putError_samples.2.2.2.2.1
  have hlen := recordBytes_length leUtil leUtil_inverse 5 oversizedZeroCreatedRecord hw hnow
  have hparse := parseResponse_recordBytes_truncated leUtil leUtil_inverse 5
    oversizedZeroCreatedRecord hw hnow (by rw [hmod]; decide)
  have hget := GetResponse_stored leUtil (DB.set sampleDB [98]
      (Bucket.put [] [107] (recordBytes leUtil 5 oversizedZeroCreatedRecord))) [98] [107] _
    (recordBytes leUtil 5 oversizedZeroCreatedRecord) (DB.set_same _ _ _)
    (Bucket.get_put _ _ _) (by omega)
  rw [hparse, hmod, List.take_zero] at hget
  have hne : ([] : Bytes) ≠ oversizedZeroCreatedRecord.Header := by
    intro h
    have h1 := congrArg List.length h
    rw [hL] at h1
    simp at h1
  exact ⟨_, _, hsave, hget, rfl, rfl, hne⟩

/-- The `createdAt` field of the bytes built for a record, whatever the
length of its header: the clock reading when `r.CreatedAt == 0`, and
`r.CreatedAt` otherwise, whatever the clock. -/
theorem stored_createdAt_field (u : Util) (hu : u.Inverse) (now : Nat) (r : ResponseData)
    (hw : r.WellTyped) (hnow : now < 2 ^ 32) :
    ∃ c, sliceRange (recordBytes u now r) createIndex statusCodeIndex = .ok c ∧
      (r.CreatedAt = 0 → u.ConvertBytesToUint32 c = now) ∧
      (r.CreatedAt ≠ 0 → u.ConvertBytesToUint32 c = r.CreatedAt) := by
  have hst := storedCreatedAt_lt now r hw hnow
  obtain ⟨ha, hb, hc, hd, he⟩ := recordBytes_parts u hu now r hw hst
  obtain ⟨_, h2, _, _, _⟩ := slices_of_layout _ _ _ _ _ (r.Header ++ r.Body) ha hb hc hd he
  rw [← recordBytes] at h2
  refine ⟨_, h2, ?_, ?_⟩
  · intro h0
    rw [hu.inv32 _ hst]
    simp [storedCreatedAt, h0]
  · intro h0
    rw [hu.inv32 _ hst]
    simp [storedCreatedAt, h0]

/-- For a well-typed record whose header is at most 65521 bytes long, saved at
clock time `now` under a key that `Put` accepts: if `r.CreatedAt == 0` the
record read back by `GetResponse` has `CreatedAt == now` and all other fields
equal to `r`'s; if `r.CreatedAt != 0` the record read back is `r`, whatever
the clock. -/
theorem createdAt_filled_automatically (u : Util) (hu : u.Inverse) (now : Nat)
    (hnow : now < 2 ^ 32) (db : DB) (bucket key : Bytes) (b : Bucket) (r : ResponseData)
    (hb : db bucket = some b) (hput : putError key (recordBytes u now r) = none)
    (hw : r.WellTyped) (hfit : r.Header.length ≤ 65521) :
    ∃ db1, SaveResponseData u now (some db) bucket key r = .ok db1 ∧
      (r.CreatedAt = 0 →
        GetResponse u (some db1) bucket key = .ok (some { r with CreatedAt := now })) ∧
      (r.CreatedAt ≠ 0 → GetResponse u (some db1) bucket key = .ok (some r)) := by
  obtain ⟨db1, hsave, hget⟩ := roundtrip_short_header u hu now db bucket key b r hb hput hw
    (storedCreatedAt_lt now r hw hnow) hfit
  refine ⟨db1, hsave, ?_, ?_⟩
  · intro h0
    rw [hget]
    simp [storedCreatedAt, h0]
  · intro h0
    rw [hget]
    simp [storedCreatedAt, h0]

/-- The scenario of `TestResponse/save response`: a record with
`CreatedAt == 0` and a three-byte header, saved at clock time 5, is read back
with `CreatedAt == 5`. -/
theorem createdAt_filled_automatically_sample :
    zeroCreatedRecord.CreatedAt = 0 ∧
    ∃ db1, SaveResponseData leUtil 5 (some sampleDB) [98] [107] zeroCreatedRecord = .ok db1 ∧
      (zeroCreatedRecord.CreatedAt = 0 →
        GetResponse leUtil (some db1) [98] [107]
          = .ok (some { zeroCreatedRecord with CreatedAt := 5 })) ∧
      (zeroCreatedRecord.CreatedAt ≠ 0 →
        GetResponse leUtil (some db1) [98] [107] = .ok (some zeroCreatedRecord)) :=
  ⟨rfl, createdAt_filled_automatically leUtil leUtil_inverse 5 (by norm_num) sampleDB [98] [107]
    [] zeroCreatedRecord (by decide) putError_samples.2.1 (by decide) (by decide)⟩

/-- C21 (CreatedAt is filled automatically), evaluated on the code: a record
with `CreatedAt == 0` whose header is 65522 bytes long is saved at clock time
5 (the stored `createdAt` field is 5), but `GetResponse` does not read a
record with `CreatedAt == 5` back: `headerIndex+headerLength` wraps in
`uint16` and the slice expression `data[headerIndex : headerIndex+headerLength]`
panics. -/
theorem createdAt_record_panics_long_header :
    longZeroCreatedRecord.CreatedAt = 0 ∧ longZeroCreatedRecord.Header.length = 65522 ∧
    ∃ db1, SaveResponseData leUtil 5 (some sampleDB) [98] [107] longZeroCreatedRecord = .ok db1 ∧
      Get (some db1) [98] [107] = .ok (some (recordBytes leUtil 5 longZeroCreatedRecord)) ∧
      (∃ c, sliceRange (recordBytes leUtil 5 longZeroCreatedRecord) createIndex statusCodeIndex
          = .ok c ∧ leUtil.ConvertBytesToUint32 c = 5) ∧
      GetResponse leUtil (some db1) [98] [107] = .error .panic := by
  have hw : longZeroCreatedRecord.WellTyped := by decide
  have hnow : storedCreatedAt 5 longZeroCreatedRecord < 2 ^ 32 := by decide
  have hL := longZeroCreatedRecord_length
  obtain ⟨hsave, hget⟩ := SaveResponseData_stores leUtil 5 sampleDB [98] [107] []
    longZeroCreatedRecord (by decide) putError_samples.2.2.2.2.2
  have hlen := recordBytes_length leUtil leUtil_inverse 5 longZeroCreatedRecord hw hnow
  obtain ⟨c, hc, hc0, _⟩ := stored_createdAt_field leUtil leUtil_inverse 5 longZeroCreatedRecord
    hw (by norm_num)
  refine ⟨rfl, hL, _, hsave, hget, ⟨c, hc, hc0 rfl⟩, ?_⟩
  rw [GetResponse_stored leUtil _ [98] [107] _ (recordBytes leUtil 5 longZeroCreatedRecord)
    (DB.set_same _ _ _) (Bucket.get_put _ _ _) (by omega),
    parseResponse_recordBytes_wrap leUtil leUtil_inverse 5 longZeroCreatedRecord hw hnow
      (by rw [hL]; decide) (by rw [hL]; decide)]

/-! ## Sweep and 32-bit overflow -/

/-- C22 (sweep deletes exactly the expired records), evaluated on the code:
a record created at time 1700000000 with TTL 3000000000 is not expired at
clock time 1700000100 (`now <= createdAt + ttl = 4700000000`), yet
`ClearExpiredResponseData` deletes it: `createdAt+ttl` is computed in `uint32`
and wraps to 405032704, which is below `now`. -/
theorem sweep_deletes_unexpired_on_overflow :
    farFutureRecord.WellTyped ∧
    1700000100 ≤ farFutureRecord.CreatedAt + farFutureRecord.TTL ∧
    addU32 farFutureRecord.CreatedAt farFutureRecord.TTL = 405032704 ∧
    farFutureDB [98] = some [([1], recordBytes leUtil 0 farFutureRecord)] ∧
    ∃ db1, ClearExpiredResponseData leUtil 1700000100 (some farFutureDB) [98] = .ok db1 ∧
      db1 [98] = some [] := by
  refine ⟨by decide, by decide, by decide, rfl, DB.set farFutureDB [98] [], ?_, DB.set_same _ _ _⟩
  have hsweep : sweepLoop leUtil 1700000100 [([1], recordBytes leUtil 0 farFutureRecord)]
      [([1], recordBytes leUtil 0 farFutureRecord)] = .ok [] := by decide
  simp [ClearExpiredResponseData, farFutureDB, DB.set_same, hsweep]

/-! ## Status table: waiters are never dropped, zero TTL never expires -/

/-- The table `GetRequestStatus` leaves has one of three shapes: the entry
replaced by a fresh one, the caller parked on a fresh channel of an entry
that is being fetched and not expired, or the table as it was. -/
theorem GetRequestStatus_shape (v : Vars) (tExp tInit : Nat) (key : Bytes) (s : Table) :
    (GetRequestStatus v tExp tInit key s).2
        = ⟨setRs s.rsMap key ⟨tInit, 0, v.Fetching, []⟩, s.chans⟩ ∨
    (∃ rs, s.rsMap key = some rs ∧ isExpired tExp rs = false ∧ rs.status = v.Fetching ∧
      (GetRequestStatus v tExp tInit key s).2
        = ⟨setRs s.rsMap key { rs with waitingChans := rs.waitingChans ++ [s.chans.length] },
            s.chans ++ [⟨[], false⟩]⟩) ∨
    (GetRequestStatus v tExp tInit key s).2 = s := by
  cases hk : s.rsMap key with
  | none =>
    left
    rw [GetRequestStatus_absent v tExp tInit key s hk, setRs_setRs]
  | some rs =>
    by_cases hx : isExpired tExp rs = true
    · left
      simp [GetRequestStatus, hk, hx, initRequestStatus, setRs_setRs]
    · by_cases hst : rs.status = v.Fetching
      · right; left
        refine ⟨rs, rfl, by simpa using hx, hst, ?_⟩
        simp [GetRequestStatus, hk, hx, hst]
      · right; right
        simp [GetRequestStatus, hk, hx, hst]

/-- The table a transition leaves when it returns: the table as it was (no
entry), or the entry resolved with an empty waiter list. -/
theorem trigger_shape (key : Bytes) (st : Int) (ttl : Nat) (s s1 : Table)
    (h : triggerWatingRequstAndSetStatus key st ttl s = .ok s1) :
    (s.rsMap key = none ∧ s1 = s) ∨
    ∃ rs, s.rsMap key = some rs ∧ s1.rsMap = setRs s.rsMap key ⟨rs.createdAt, ttl, st, []⟩ := by
  cases hk : s.rsMap key with
  | none =>
    left
    simp [triggerWatingRequstAndSetStatus, hk] at h
    exact ⟨rfl, h.symm⟩
  | some rs =>
    right
    refine ⟨rs, rfl, ?_⟩
    unfold triggerWatingRequstAndSetStatus at h
    rw [hk] at h
    dsimp only at h
    cases hsig : signalAll st rs.waitingChans s.chans with
    | error f => rw [hsig] at h; cases h
    | ok heap =>
      rw [hsig] at h
      dsimp only at h
      cases h
      rfl

theorem WaitersFetching_empty (v : Vars) : WaitersFetching v Table.empty := by
  intro key rs h
  cases h

theorem WaitersFetching_setRs (v : Vars) (s : Table) (key : Bytes) (r : RequestStatus)
    (heap : List Chan) (hinv : WaitersFetching v s)
    (hr : (r.status = v.Fetching → r.ttl = 0) ∧ (r.waitingChans ≠ [] → r.status = v.Fetching)) :
    WaitersFetching v ⟨setRs s.rsMap key r, heap⟩ := by
  intro k rs hk
  dsimp only at hk
  by_cases e : k = key
  · subst e
    rw [setRs_same] at hk
    cases hk
    exact hr
  · rw [setRs_other _ _ _ _ e] at hk
    exact hinv k rs hk

theorem WaitersFetching_GetRequestStatus (v : Vars) (tExp tInit : Nat) (key : Bytes)
    (s : Table) (hinv : WaitersFetching v s) :
    WaitersFetching v (GetRequestStatus v tExp tInit key s).2 := by
  rcases GetRequestStatus_shape v tExp tInit key s with h | ⟨rs, hk, _, hst, h⟩ | h
  · rw [h]
    exact WaitersFetching_setRs v s key _ _ hinv ⟨fun _ => rfl, fun h0 => absurd rfl h0⟩
  · rw [h]
    exact WaitersFetching_setRs v s key _ _ hinv ⟨fun _ => (hinv key rs hk).1 hst, fun _ => hst⟩
  · rw [h]
    exact hinv

theorem WaitersFetching_trigger (v : Vars) (key : Bytes) (st : Int) (ttl : Nat) (s s1 : Table)
    (hst : st ≠ v.Fetching) (hinv : WaitersFetching v s)
    (h : triggerWatingRequstAndSetStatus key st ttl s = .ok s1) : WaitersFetching v s1 := by
  rcases trigger_shape key st ttl s s1 h with ⟨_, rfl⟩ | ⟨rs, _, hmap⟩
  · exact hinv
  · intro k r hk
    rw [hmap] at hk
    exact WaitersFetching_setRs v s key ⟨rs.createdAt, ttl, st, []⟩ s1.chans hinv
      ⟨fun h0 => absurd h0 hst, fun h0 => absurd rfl h0⟩ k r hk

theorem WaitersFetching_run (v : Vars) (hHF : v.HitForPass ≠ v.Fetching)
    (hCF : v.Cacheable ≠ v.Fetching) (calls : List Call) :
    ∀ s s1, WaitersFetching v s → run v calls s = .ok s1 → WaitersFetching v s1 := by
  induction calls with
  | nil =>
    intro s s1 hinv h
    simp only [run, Except.ok.injEq] at h
    exact h ▸ hinv
  | cons c cs ih =>
    intro s s1 hinv h
    unfold run at h
    cases hstep : step v s c with
    | error f => rw [hstep] at h; cases h
    | ok s2 =>
      rw [hstep] at h
      dsimp only at h
      refine ih s2 s1 ?_ h
      cases c with
      | get key tExp tInit =>
        simp only [step, Except.ok.injEq] at hstep
        exact hstep ▸ WaitersFetching_GetRequestStatus v tExp tInit key s hinv
      | hitForPass key ttl =>
        exact WaitersFetching_trigger v key v.HitForPass ttl s s2 hHF hinv hstep
      | cacheable key ttl =>
        exact WaitersFetching_trigger v key v.Cacheable ttl s s2 hCF hinv hstep

/-- On an entry with TTL 0 and a status other than `Fetching` the caller gets
that status and the table stays as it was. -/
theorem GetRequestStatus_resolved (v : Vars) (tExp tInit : Nat) (key : Bytes) (s : Table)
    (rs : RequestStatus) (h : s.rsMap key = some rs) (httl : rs.ttl = 0)
    (hst : rs.status ≠ v.Fetching) :
    GetRequestStatus v tExp tInit key s = ((rs.status, none), s) := by
  simp [GetRequestStatus, h, isExpired_ttl_zero _ _ httl, hst]

theorem getSeq_resolved (v : Vars) (key : Bytes) (s : Table) (rs : RequestStatus)
    (h : s.rsMap key = some rs) (httl : rs.ttl = 0) (hst : rs.status ≠ v.Fetching)
    (ts : List (Nat × Nat)) :
    getSeq v key ts s = (List.replicate ts.length (rs.status, none), s) := by
  induction ts with
  | nil => rfl
  | cons t ts ih =>
    obtain ⟨tExp, tInit⟩ := t
    simp only [getSeq, GetRequestStatus_resolved v tExp tInit key s rs h httl hst, ih,
      List.length_cons, List.replicate_succ]

/-- C23 (no parked waiter is ever discarded unsignalled). Every sequence of
`GetRequestStatus`, `HitForPass` and `Cacheable` calls, with any TTL arguments
and clock readings, started on the empty table runs to its end, and in the
table it reaches every entry with a non-empty waiter list has status
`Fetching` and TTL 0, so `isExpired` is false for it at every clock value and
`GetRequestStatus` does not replace it: the entry keeps its waiter channels
(and gets the new caller's). `HitForPass` and `Cacheable` are constants
different from `Fetching`. -/
theorem waiters_never_discarded (v : Vars) (hHF : v.HitForPass ≠ v.Fetching)
    (hCF : v.Cacheable ≠ v.Fetching) (calls : List Call) :
    ∃ s, run v calls Table.empty = .ok s ∧
      ∀ key rs, s.rsMap key = some rs → rs.waitingChans ≠ [] →
        rs.status = v.Fetching ∧ rs.ttl = 0 ∧ (∀ now, isExpired now rs = false) ∧
        ∀ tExp tInit, (GetRequestStatus v tExp tInit key s).2.rsMap key
          = some { rs with waitingChans := rs.waitingChans ++ [s.chans.length] } := by
  obtain ⟨s, hrun, _⟩ := TableInv_run v calls Table.empty TableInv_empty
  have hinv := WaitersFetching_run v hHF hCF calls Table.empty s (WaitersFetching_empty v) hrun
  refine ⟨s, hrun, ?_⟩
  intro key rs hk hne
  have hst := (hinv key rs hk).2 hne
  have httl := (hinv key rs hk).1 hst
  refine ⟨hst, httl, fun now => isExpired_ttl_zero now rs httl, ?_⟩
  intro tExp tInit
  rw [GetRequestStatus_fetching v tExp tInit key s rs hk httl hst]
  exact setRs_same _ _ _

/-- C23 at a concrete input: a fetcher and a parked caller on key `[1]`. -/
theorem waiters_never_discarded_witness :
    sampleVars.HitForPass ≠ sampleVars.Fetching ∧ sampleVars.Cacheable ≠ sampleVars.Fetching ∧
    ∃ s, run sampleVars [.get [1] 5 5, .get [1] 6 6] Table.empty = .ok s ∧
      ∀ key rs, s.rsMap key = some rs → rs.waitingChans ≠ [] →
        rs.status = sampleVars.Fetching ∧ rs.ttl = 0 ∧ (∀ now, isExpired now rs = false) ∧
        ∀ tExp tInit, (GetRequestStatus sampleVars tExp tInit key s).2.rsMap key
          = some { rs with waitingChans := rs.waitingChans ++ [s.chans.length] } :=
  ⟨by decide, by decide,
    waiters_never_discarded sampleVars (by decide) (by decide) [.get [1] 5 5, .get [1] 6 6]⟩

/-- C24 (a zero TTL means no expiry for resolved entries too). In a table
reached from the empty one, for a key with an entry, `HitForPass(key, 0)` and
`Cacheable(key, 0)` return, `isExpired` is false for the entry at every clock
value afterwards, and every later `GetRequestStatus(key)`, with no other
transition in between and whatever the clock readings, returns the assigned
status with a nil channel. `HitForPass` and `Cacheable` are constants
different from `Fetching`. -/
theorem zero_ttl_never_expires (v : Vars) (hHF : v.HitForPass ≠ v.Fetching)
    (hCF : v.Cacheable ≠ v.Fetching) (calls : List Call) (s : Table) (key : Bytes)
    (rs : RequestStatus) (hrun : run v calls Table.empty = .ok s)
    (hk : s.rsMap key = some rs) (ts : List (Nat × Nat)) :
    (∃ s1 rs1, HitForPass v key 0 s = .ok s1 ∧ s1.rsMap key = some rs1 ∧
      (∀ now, isExpired now rs1 = false) ∧
      (getSeq v key ts s1).1 = List.replicate ts.length (v.HitForPass, none)) ∧
    (∃ s1 rs1, Cacheable v key 0 s = .ok s1 ∧ s1.rsMap key = some rs1 ∧
      (∀ now, isExpired now rs1 = false) ∧
      (getSeq v key ts s1).1 = List.replicate ts.length (v.Cacheable, none)) := by
  obtain ⟨s0, hrun0, hinv⟩ := TableInv_run v calls Table.empty TableInv_empty
  rw [hrun] at hrun0
  cases hrun0
  have hall : ∀ st, st ≠ v.Fetching →
      ∃ s1 rs1, triggerWatingRequstAndSetStatus key st 0 s = .ok s1 ∧ s1.rsMap key = some rs1 ∧
        (∀ now, isExpired now rs1 = false) ∧
        (getSeq v key ts s1).1 = List.replicate ts.length (st, none) := by
    intro st hst
    obtain ⟨s1, htr, hentry, _⟩ :=
      trigger_open key st 0 s rs hk (hinv.1 key rs hk).1 (hinv.1 key rs hk).2
    refine ⟨s1, ⟨rs.createdAt, 0, st, []⟩, htr, hentry,
      fun now => isExpired_ttl_zero now _ rfl, ?_⟩
    rw [getSeq_resolved v key s1 ⟨rs.createdAt, 0, st, []⟩ hentry rfl hst ts]
  exact ⟨hall v.HitForPass hHF, hall v.Cacheable hCF⟩

/-- C24 at a concrete input: the entry of key `[1]` with one parked caller,
resolved with TTL 0 and read at times 7 and 4000000000. -/
theorem zero_ttl_never_expires_witness :
    run sampleVars [.get [1] 5 5, .get [1] 6 6] Table.empty = .ok oneWaiterTable ∧
    oneWaiterTable.rsMap [1] = some ⟨5, 0, 1, [0]⟩ ∧
    (∃ s1 rs1, HitForPass sampleVars [1] 0 oneWaiterTable = .ok s1 ∧ s1.rsMap [1] = some rs1 ∧
      (∀ now, isExpired now rs1 = false) ∧
      (getSeq sampleVars [1] [(7, 7), (4000000000, 1)] s1).1
        = List.replicate [(7, 7), (4000000000, 1)].length (sampleVars.HitForPass, none)) ∧
    (∃ s1 rs1, Cacheable sampleVars [1] 0 oneWaiterTable = .ok s1 ∧ s1.rsMap [1] = some rs1 ∧
      (∀ now, isExpired now rs1 = false) ∧
      (getSeq sampleVars [1] [(7, 7), (4000000000, 1)] s1).1
        = List.replicate [(7, 7), (4000000000, 1)].length (sampleVars.Cacheable, none)) :=
  ⟨rfl, by decide,
    zero_ttl_never_expires sampleVars (by decide) (by decide) [.get [1] 5 5, .get [1] 6 6]
      oneWaiterTable [1] ⟨5, 0, 1, [0]⟩ rfl (by decide) [(7, 7), (4000000000, 1)]⟩

/-! ## HTTPCache.Get: the claim -/

/-- On the direct path `get()` returns data only together with
`StatusCachable`. -/
theorem get_data_only_when_cachable (now : Int) (hc : HTTPCache)
    (h : (HTTPCache.get now hc).1.2.2 ≠ none) : (HTTPCache.get now hc).1.1 = StatusCachable := by
  by_contra hne
  apply h
  simp only [HTTPCache.get] at hne ⊢
  rw [if_neg hne]

/-- C25 (`HTTPCache.Get` returns data only for cacheable results), evaluated
on the code. The waiting path of `Get` copies `hc.data` without the
`status == StatusCachable` test of the direct path, and neither `HitForPass`
nor the expiry reset of `get()` clears `hc.data`.
(1) An `HTTPCache` is made cacheable at time 100 with TTL 10, a `get()` at
time 200 sees it expired and puts it back in `StatusFetching` (this is
`refetchingHTTPCache`, which still holds the data), and a `Get()` that reads
the clock as 105 parks on it; released by `HitForPass(300)`, the caller
returns `StatusHitForPass` together with the data of the earlier `Cachable`
call.
(2) With non-decreasing clock readings: a caller parks at time 60 on a new
`HTTPCache` that is being fetched, is released by `Cachable` at time 100 with
TTL 1, and reads `hc.status` and `hc.data` only after a `get()` at time 102
has seen the expiry; it returns `StatusFetching` together with the data. -/
theorem Get_waiter_returns_stale_data :
    (∃ hc2 heap2, HTTPCache.Cachable 100 10 200 [1, 2] [] [] (HTTPCache.get 50 NewHTTPCache).2 []
        = .ok (hc2, heap2) ∧ (HTTPCache.get 200 hc2).2 = refetchingHTTPCache) ∧
    (∃ hc3 heap3, HTTPCache.Get 105 (HTTPCache.HitForPass 106 300) refetchingHTTPCache []
        = .ok ((StatusHitForPass, some sampleHTTPData), hc3, heap3)) ∧
    StatusHitForPass ≠ StatusCachable ∧
    (∃ hc3 heap3, HTTPCache.Get 60 releaseThenExpire (HTTPCache.get 50 NewHTTPCache).2 []
        = .ok ((StatusFetching, some sampleHTTPData), hc3, heap3)) ∧
    StatusFetching ≠ StatusCachable := by
  refine ⟨⟨_, _, rfl, by decide⟩, ⟨_, _, rfl⟩, by decide, ⟨_, _, rfl⟩, by decide⟩

end Pike
